import Mathlib

/-!
Verification of the pyscroll scrolling-map renderer core.

Shallow embedding of:
* `pyscroll/quadtree.py` — `FastQuadTree.__init__` and `FastQuadTree.hit`
* `pyscroll/renderer.py` — `AbstractRenderer` / `OrthogonalRenderer` camera
  and buffer state machine (`center`, `draw`, `scroll`, `_center_map`,
  `_get_edge_tiles`, `_get_filled_queue`, `_blit_tiles`, `_overdraw`,
  `_get_tile_image`, `_flush`, `redraw`, `update_queue`).

The source is Python 2 (it contains `raise Exception, "..."` syntax), so
`/` on integers is floor division, and it runs against pygame 1.x whose
`Rect` stores integer `x, y, w, h` with `right = x + w`, `bottom = y + h`,
`centerx = x + (w >> 1)` (arithmetic shift, i.e. floor division by 2), and
whose rectangle-overlap test `do_rects_intersect` is the disjunctive
half-open-interval test embedded below as `pygameCollide`.

Pixels, tile indices and layers are embedded as `Int`; surfaces are
embedded by identifiers, and the off-screen buffer's pixel mutations are
observed through explicit logs (`scrollLog` for `Surface.scroll` calls,
`blitLog` for tile coordinates drained from the redraw queue).
-/

/-- pygame `Rect`: integer position and size; `right`/`bottom` are derived. -/
structure PRect where
  x : Int
  y : Int
  w : Int
  h : Int
deriving DecidableEq, Repr

namespace PRect

def left (r : PRect) : Int := r.x

def top (r : PRect) : Int := r.y

def right (r : PRect) : Int := r.x + r.w

def bottom (r : PRect) : Int := r.y + r.h

/-- pygame: `rect->x + (rect->w >> 1)` (arithmetic shift = floor division). -/
def centerx (r : PRect) : Int := r.x + Int.fdiv r.w 2

/-- pygame: `rect->y + (rect->h >> 1)`. -/
def centery (r : PRect) : Int := r.y + Int.fdiv r.h 2

/-- pygame `Rect.union`: smallest rect covering both. -/
def union (a b : PRect) : PRect :=
  let l := min a.x b.x
  let t := min a.y b.y
  ⟨l, t, max (a.x + a.w) (b.x + b.w) - l, max (a.y + a.h) (b.y + b.h) - t⟩

/-- `Rect(items[0]).unionall(items[1:])`. -/
def unionall (r : PRect) (others : List PRect) : PRect :=
  others.foldl union r

/-- pygame `Rect.move`. -/
def move (r : PRect) (dx dy : Int) : PRect := ⟨r.x + dx, r.y + dy, r.w, r.h⟩

/-- pygame 1.x `do_rects_intersect` (used by `colliderect` /
`collidelistall`): on each axis, one rect's start lies inside the other's
half-open extent. -/
def pygameCollide (A B : PRect) : Bool :=
  ((A.x ≥ B.x && A.x < B.x + B.w) || (B.x ≥ A.x && B.x < A.x + A.w)) &&
  ((A.y ≥ B.y && A.y < B.y + B.h) || (B.y ≥ A.y && B.y < A.y + A.h))

theorem pygameCollide_iff (A B : PRect) :
    pygameCollide A B = true ↔
      (((A.x ≥ B.x ∧ A.x < B.x + B.w) ∨ (B.x ≥ A.x ∧ B.x < A.x + A.w)) ∧
       ((A.y ≥ B.y ∧ A.y < B.y + B.h) ∨ (B.y ≥ A.y ∧ B.y < A.y + A.h))) := by
  simp [pygameCollide, and_assoc]

end PRect

/-! ## FastQuadTree (`pyscroll/quadtree.py`) -/

/-- Quadrant membership test from `FastQuadTree.__init__`:
`in_nw = item.left <= cx and item.top <= cy`. -/
def in_nw (cx cy : Int) (r : PRect) : Bool := r.left ≤ cx && r.top ≤ cy

/-- `in_sw = item.left <= cx and item.bottom >= cy`. -/
def in_sw (cx cy : Int) (r : PRect) : Bool := r.left ≤ cx && r.bottom ≥ cy

/-- `in_ne = item.right >= cx and item.top <= cy`. -/
def in_ne (cx cy : Int) (r : PRect) : Bool := r.right ≥ cx && r.top ≤ cy

/-- `in_se = item.right >= cx and item.bottom >= cy`. -/
def in_se (cx cy : Int) (r : PRect) : Bool := r.right ≥ cx && r.bottom ≥ cy

/-- `in_nw and in_ne and in_se and in_sw`: the item straddles all four
quadrants and is kept at the current node. -/
def allFour (cx cy : Int) (r : PRect) : Bool :=
  in_nw cx cy r && in_ne cx cy r && in_se cx cy r && in_sw cx cy r

/-- The recursive node structure of `FastQuadTree` (`__slots__`:
`_items, _cx, _cy, _nw, _sw, _ne, _se`).  At leaf ("flat") nodes the
Python object never sets `_cx`/`_cy`; they are never read there (children
are all `None`), so the embedding stores `0`. -/
inductive FastQuadTree : Type where
  | node (items : List PRect) (cx cy : Int)
      (nw ne se sw : Option FastQuadTree) : FastQuadTree
deriving Repr

namespace FastQuadTree

def items : FastQuadTree → List PRect
  | .node i _ _ _ _ _ _ => i

def nw : FastQuadTree → Option FastQuadTree
  | .node _ _ _ c _ _ _ => c

def ne : FastQuadTree → Option FastQuadTree
  | .node _ _ _ _ c _ _ => c

def se : FastQuadTree → Option FastQuadTree
  | .node _ _ _ _ _ c _ => c

def sw : FastQuadTree → Option FastQuadTree
  | .node _ _ _ _ _ _ c => c

end FastQuadTree

/-- `boundary = Rect(boundary)` if a boundary was given, else
`Rect(items[0]).unionall(items[1:])` (only reached with nonempty
`items`; the `headD` default is never used). -/
def qtBoundary (items : List PRect) (boundary0 : Option PRect) : PRect :=
  match boundary0 with
  | some b => b
  | none => PRect.unionall (items.headD ⟨0, 0, 0, 0⟩) items.tail

/-- `FastQuadTree.__init__`.  `depth` is the Python integer argument: it is
decremented *before* the `depth == 0` test, so recursion is cut off by
depth exactly when the passed-in value is `1`.  Python's recursion has no
fuel; the embedding adds a `fuel : Nat` argument (returning `none` on
exhaustion) solely to express the recursion in Lean — any sufficiently
large fuel reproduces the Python computation. -/
def fastQuadTreeInit : Nat → List PRect → Int → Option PRect → Option FastQuadTree
  | 0, _, _, _ => none
  | fuel + 1, items, depth0, boundary0 =>
    -- depth -= 1; if depth == 0 or not items: self._items = items; return
    let depth := depth0 - 1
    if depth = 0 ∨ items = [] then
      some (.node items 0 0 none none none none)
    else
      let boundary := qtBoundary items boundary0
      let cx := boundary.centerx
      let cy := boundary.centery
      let keep := items.filter (fun r => allFour cx cy r)
      let nwItems := items.filter (fun r => in_nw cx cy r && !allFour cx cy r)
      let neItems := items.filter (fun r => in_ne cx cy r && !allFour cx cy r)
      let seItems := items.filter (fun r => in_se cx cy r && !allFour cx cy r)
      let swItems := items.filter (fun r => in_sw cx cy r && !allFour cx cy r)
      -- if xx_items: self._xx = FastQuadTree(xx_items, depth, (…))
      -- NOTE: the 4-tuples are pygame Rects, i.e. (left, top, WIDTH, HEIGHT):
      -- the child boundary's size components are the parent center coordinates.
      let child := fun (l : List PRect) (bnd : PRect) =>
        if l = [] then some none
        else (fastQuadTreeInit fuel l depth (some bnd)).map some
      match child nwItems ⟨boundary.left, boundary.top, cx, cy⟩,
            child neItems ⟨cx, boundary.top, boundary.right, cy⟩,
            child seItems ⟨cx, cy, boundary.right, boundary.bottom⟩,
            child swItems ⟨boundary.left, cy, cx, boundary.bottom⟩ with
      | some cnw, some cne, some cse, some csw =>
          some (.node keep cx cy cnw cne cse csw)
      | _, _, _, _ => none


/-- `FastQuadTree.hit(rect)` lifted to an optional node.  The Python body
starts from the set of node items colliding with `rect`
(`rect.collidelistall(self._items)`, collected by value) and then performs
four guarded `hits |= child.hit(rect)` accumulations, one per child,
guarded by `child is not None` and the half-plane test; the sequential
`|=` chain is written here as a union in which an absent child and a
failed half-plane test contribute `∅`. -/
def qhit : Option FastQuadTree → PRect → Finset PRect
  | none, _ => ∅
  | some (.node items cx cy nw ne se sw), rect =>
    (items.filter (fun it => PRect.pygameCollide rect it)).toFinset
      ∪ (if rect.left ≤ cx ∧ rect.top ≤ cy then qhit nw rect else ∅)
      ∪ (if rect.left ≤ cx ∧ rect.bottom ≥ cy then qhit sw rect else ∅)
      ∪ (if rect.right ≥ cx ∧ rect.top ≤ cy then qhit ne rect else ∅)
      ∪ (if rect.right ≥ cx ∧ rect.bottom ≥ cy then qhit se rect else ∅)

/-- `FastQuadTree.hit(rect)` on an actual tree. -/
def hitQT (t : FastQuadTree) (rect : PRect) : Finset PRect := qhit (some t) rect

theorem mem_ite_empty {c : Prop} [Decidable c] (s : Finset PRect) (r : PRect) :
    r ∈ (if c then s else ∅) ↔ c ∧ r ∈ s := by
  split_ifs with h <;> simp [h]

/-- Membership in a `hitQT` result of a single node, unfolded to the five
contributing sources (node items plus the four guarded child recursions). -/
theorem mem_hitQT_node (items : List PRect) (cx cy : Int)
    (nw ne se sw : Option FastQuadTree) (rect r : PRect) :
    r ∈ hitQT (.node items cx cy nw ne se sw) rect ↔
      ((r ∈ items ∧ PRect.pygameCollide rect r = true) ∨
       ((rect.left ≤ cx ∧ rect.top ≤ cy) ∧ r ∈ qhit nw rect) ∨
       ((rect.left ≤ cx ∧ rect.bottom ≥ cy) ∧ r ∈ qhit sw rect) ∨
       ((rect.right ≥ cx ∧ rect.top ≤ cy) ∧ r ∈ qhit ne rect) ∨
       ((rect.right ≥ cx ∧ rect.bottom ≥ cy) ∧ r ∈ qhit se rect)) := by
  simp only [hitQT, qhit, Finset.mem_union, mem_ite_empty, List.mem_toFinset,
    List.mem_filter, or_assoc]

/-- Geometric core of quadtree exactness: if two nonnegative-size extents
overlap in the pygame sense on one axis, then for any center coordinate
`c` both extents reach the low side of `c` or both reach the high side. -/
theorem overlap_reaches_side {qx qw rx rw c : Int}
    (hc : (qx ≥ rx ∧ qx < rx + rw) ∨ (rx ≥ qx ∧ rx < qx + qw))
    (hq : 0 ≤ qw) (hr : 0 ≤ rw) :
    (qx ≤ c ∧ rx ≤ c) ∨ (c ≤ qx + qw ∧ c ≤ rx + rw) := by omega

/-- Soundness half of index exactness: everything `hit` returns is one of
the indexed items and collides with the query rectangle. -/
theorem qhit_sound (fuel : Nat) :
    ∀ (items : List PRect) (depth : Int) (b : Option PRect) (t : FastQuadTree)
      (Q r : PRect),
      fastQuadTreeInit fuel items depth b = some t →
      r ∈ hitQT t Q → r ∈ items ∧ PRect.pygameCollide Q r = true := by
  induction fuel with
  | zero => intro items depth b t Q r h; simp [fastQuadTreeInit] at h
  | succ n ih =>
    intro items depth b t Q r h hmem
    simp only [fastQuadTreeInit] at h
    split at h
    · -- flat node: all items stored at this node, no children
      cases h
      rw [mem_hitQT_node] at hmem
      simp only [qhit, Finset.not_mem_empty, and_false, or_false] at hmem
      exact hmem
    · -- split node
      split at h
      case _ cnw cne cse csw heqnw heqne heqse heqsw =>
        cases h
        rw [mem_hitQT_node] at hmem
        have sub : ∀ (p : PRect → Bool), r ∈ items.filter p → r ∈ items :=
          fun p hp => (List.mem_filter.mp hp).1
        rcases hmem with ⟨hk, hc⟩ | ⟨_, hq⟩ | ⟨_, hq⟩ | ⟨_, hq⟩ | ⟨_, hq⟩
        · exact ⟨sub _ hk, hc⟩
        · cases cnw with
          | none => simp [qhit] at hq
          | some t' =>
            split at heqnw
            · simp at heqnw
            · rw [Option.map_eq_some'] at heqnw
              obtain ⟨t'', hinit, ht''⟩ := heqnw
              obtain rfl : t'' = t' := by injection ht''
              obtain ⟨hr, hcol⟩ := ih _ _ _ _ Q r hinit hq
              exact ⟨sub _ hr, hcol⟩
        · cases csw with
          | none => simp [qhit] at hq
          | some t' =>
            split at heqsw
            · simp at heqsw
            · rw [Option.map_eq_some'] at heqsw
              obtain ⟨t'', hinit, ht''⟩ := heqsw
              obtain rfl : t'' = t' := by injection ht''
              obtain ⟨hr, hcol⟩ := ih _ _ _ _ Q r hinit hq
              exact ⟨sub _ hr, hcol⟩
        · cases cne with
          | none => simp [qhit] at hq
          | some t' =>
            split at heqne
            · simp at heqne
            · rw [Option.map_eq_some'] at heqne
              obtain ⟨t'', hinit, ht''⟩ := heqne
              obtain rfl : t'' = t' := by injection ht''
              obtain ⟨hr, hcol⟩ := ih _ _ _ _ Q r hinit hq
              exact ⟨sub _ hr, hcol⟩
        · cases cse with
          | none => simp [qhit] at hq
          | some t' =>
            split at heqse
            · simp at heqse
            · rw [Option.map_eq_some'] at heqse
              obtain ⟨t'', hinit, ht''⟩ := heqse
              obtain rfl : t'' = t' := by injection ht''
              obtain ⟨hr, hcol⟩ := ih _ _ _ _ Q r hinit hq
              exact ⟨sub _ hr, hcol⟩
      case _ => exact absurd h (by simp)

/-- Completeness half of index exactness: an indexed item (nonnegative
size) colliding with a nonnegative-size query rectangle is always found,
including items duplicated across center lines. -/
theorem qhit_complete (fuel : Nat) :
    ∀ (items : List PRect) (depth : Int) (b : Option PRect) (t : FastQuadTree)
      (Q r : PRect),
      fastQuadTreeInit fuel items depth b = some t →
      r ∈ items → PRect.pygameCollide Q r = true →
      0 ≤ Q.w → 0 ≤ Q.h → 0 ≤ r.w → 0 ≤ r.h →
      r ∈ hitQT t Q := by
  induction fuel with
  | zero => intro items depth b t Q r h; simp [fastQuadTreeInit] at h
  | succ n ih =>
    intro items depth b t Q r h hr hcol hQw hQh hrw hrh
    simp only [fastQuadTreeInit] at h
    split at h
    · cases h
      rw [mem_hitQT_node]
      exact Or.inl ⟨hr, hcol⟩
    · split at h
      case _ cnw cne cse csw heqnw heqne heqse heqsw =>
        cases h
        rw [mem_hitQT_node]
        set cx := (qtBoundary items b).centerx with hcxdef
        set cy := (qtBoundary items b).centery with hcydef
        by_cases hall : allFour cx cy r = true
        · exact Or.inl ⟨List.mem_filter.mpr ⟨hr, hall⟩, hcol⟩
        · have hallf : allFour cx cy r = false := by
            exact Bool.not_eq_true _ ▸ Bool.of_not_eq_true hall
          obtain ⟨hH, hV⟩ := (PRect.pygameCollide_iff Q r).mp hcol
          have hx := overlap_reaches_side (c := cx) hH hQw hrw
          have hy := overlap_reaches_side (c := cy) hV hQh hrh
          rcases hx with ⟨hQx, hrx⟩ | ⟨hQx, hrx⟩ <;>
            rcases hy with ⟨hQy, hry⟩ | ⟨hQy, hry⟩
          · -- west + north: the NW quadrant holds both item and query
            have hin : (in_nw cx cy r && !allFour cx cy r) = true := by
              simp only [in_nw, PRect.left, PRect.top, hallf, Bool.not_false,
                Bool.and_true, Bool.and_eq_true, decide_eq_true_eq]
              exact ⟨hrx, hry⟩
            have hmemf : r ∈ items.filter
                (fun r => in_nw cx cy r && !allFour cx cy r) :=
              List.mem_filter.mpr ⟨hr, hin⟩
            rw [if_neg (by exact fun hnil => (List.ne_nil_of_mem hmemf) hnil),
              Option.map_eq_some'] at heqnw
            obtain ⟨t', hinit, hres⟩ := heqnw
            subst hres
            exact Or.inr (Or.inl ⟨⟨hQx, hQy⟩,
              ih _ _ _ _ Q r hinit hmemf hcol hQw hQh hrw hrh⟩)
          · -- west + south: the SW quadrant holds both item and query
            have hin : (in_sw cx cy r && !allFour cx cy r) = true := by
              simp only [in_sw, PRect.left, PRect.bottom, hallf, Bool.not_false,
                Bool.and_true, Bool.and_eq_true, decide_eq_true_eq]
              exact ⟨hrx, hry⟩
            have hmemf : r ∈ items.filter
                (fun r => in_sw cx cy r && !allFour cx cy r) :=
              List.mem_filter.mpr ⟨hr, hin⟩
            rw [if_neg (by exact fun hnil => (List.ne_nil_of_mem hmemf) hnil),
              Option.map_eq_some'] at heqsw
            obtain ⟨t', hinit, hres⟩ := heqsw
            subst hres
            exact Or.inr (Or.inr (Or.inl ⟨⟨hQx, hQy⟩,
              ih _ _ _ _ Q r hinit hmemf hcol hQw hQh hrw hrh⟩))
          · -- east + north: the NE quadrant holds both item and query
            have hin : (in_ne cx cy r && !allFour cx cy r) = true := by
              simp only [in_ne, PRect.right, PRect.top, hallf, Bool.not_false,
                Bool.and_true, Bool.and_eq_true, decide_eq_true_eq]
              exact ⟨hrx, hry⟩
            have hmemf : r ∈ items.filter
                (fun r => in_ne cx cy r && !allFour cx cy r) :=
              List.mem_filter.mpr ⟨hr, hin⟩
            rw [if_neg (by exact fun hnil => (List.ne_nil_of_mem hmemf) hnil),
              Option.map_eq_some'] at heqne
            obtain ⟨t', hinit, hres⟩ := heqne
            subst hres
            exact Or.inr (Or.inr (Or.inr (Or.inl ⟨⟨hQx, hQy⟩,
              ih _ _ _ _ Q r hinit hmemf hcol hQw hQh hrw hrh⟩)))
          · -- east + south: the SE quadrant holds both item and query
            have hin : (in_se cx cy r && !allFour cx cy r) = true := by
              simp only [in_se, PRect.right, PRect.bottom, hallf, Bool.not_false,
                Bool.and_true, Bool.and_eq_true, decide_eq_true_eq]
              exact ⟨hrx, hry⟩
            have hmemf : r ∈ items.filter
                (fun r => in_se cx cy r && !allFour cx cy r) :=
              List.mem_filter.mpr ⟨hr, hin⟩
            rw [if_neg (by exact fun hnil => (List.ne_nil_of_mem hmemf) hnil),
              Option.map_eq_some'] at heqse
            obtain ⟨t', hinit, hres⟩ := heqse
            subst hres
            exact Or.inr (Or.inr (Or.inr (Or.inr ⟨⟨hQx, hQy⟩,
              ih _ _ _ _ Q r hinit hmemf hcol hQw hQh hrw hrh⟩)))
      case _ => exact absurd h (by simp)

/-- C1: For every rectangle set R used to build the quadtree
(`FastQuadTree`, any depth/boundary arguments, rectangles of nonnegative
size as tile cells are) and every query rectangle Q of nonnegative size,
`hit(Q)` returns exactly the set of items of R whose rectangle intersects
Q in the pygame sense — items touching the center lines are duplicated
into every quadrant they touch and are never missed, and no
non-overlapping item is returned. -/
theorem quadtree_hit_exact (fuel : Nat) (items : List PRect) (depth : Int)
    (b : Option PRect) (t : FastQuadTree) (Q : PRect)
    (hbuild : fastQuadTreeInit fuel items depth b = some t)
    (hitems : ∀ r ∈ items, 0 ≤ r.w ∧ 0 ≤ r.h)
    (hQw : 0 ≤ Q.w) (hQh : 0 ≤ Q.h) :
    hitQT t Q = (items.filter (fun r => PRect.pygameCollide Q r)).toFinset := by
  ext r
  simp only [List.mem_toFinset, List.mem_filter]
  constructor
  · exact fun h => qhit_sound fuel items depth b t Q r hbuild h
  · rintro ⟨hr, hcol⟩
    exact qhit_complete fuel items depth b t Q r hbuild hr hcol hQw hQh
      (hitems r hr).1 (hitems r hr).2

/-- Four 16×16 tile cells in a 2×2 grid, as the renderer indexes them. -/
def c1Items : List PRect :=
  [⟨0, 0, 16, 16⟩, ⟨16, 0, 16, 16⟩, ⟨0, 16, 16, 16⟩, ⟨16, 16, 16, 16⟩]

/-- The tree the renderer would build over `c1Items` (`depth = 4`). -/
def c1Tree : FastQuadTree :=
  (fastQuadTreeInit 8 c1Items 4 none).getD (.node [] 0 0 none none none none)

/-- Witness for C1 at a concrete build and query. -/
theorem quadtree_hit_exact_witness :
    hitQT c1Tree ⟨8, 8, 16, 16⟩ =
      (c1Items.filter
        (fun r => PRect.pygameCollide ⟨8, 8, 16, 16⟩ r)).toFinset :=
  quadtree_hit_exact 8 c1Items 4 none c1Tree ⟨8, 8, 16, 16⟩ (by rfl)
    (by decide) (by decide) (by decide)

/-! ## Renderer (`pyscroll/renderer.py`) -/

/-- `xrange_(a, b)`: the ascending integers `a, a+1, …, b−1`. -/
def intRange (a b : Int) : List Int :=
  (List.range (b - a).toNat).map (fun (i : Nat) => a + (i : Int))

/-- `xrange_(a, b, -1)`: the descending integers `a, a−1, …, b+1`. -/
def intRangeDesc (a b : Int) : List Int :=
  (List.range (a - b).toNat).map (fun (i : Nat) => a - (i : Int))

/-- `itertools.product(xs, ys, ls)`: tuples with the first factor
outermost and the last innermost. -/
def product3 (xs ys ls : List Int) : List (Int × Int × Int) :=
  xs.flatMap (fun x => ys.flatMap (fun y => ls.map (fun l => (x, y, l))))

theorem mem_intRange {a b x : Int} : x ∈ intRange a b ↔ a ≤ x ∧ x < b := by
  unfold intRange
  rw [List.mem_map]
  constructor
  · rintro ⟨i, hi, rfl⟩
    have hi' := List.mem_range.mp hi
    omega
  · intro h
    exact ⟨(x - a).toNat, List.mem_range.mpr (by omega), by omega⟩

theorem intRange_length (a b : Int) : (intRange a b).length = (b - a).toNat := by
  unfold intRange
  rw [List.length_map, List.length_range]

theorem intRangeDesc_length (a b : Int) :
    (intRangeDesc a b).length = (a - b).toNat := by
  unfold intRangeDesc
  rw [List.length_map, List.length_range]

theorem flatMap_map_length (ls : List Int) (x : Int) : ∀ (l : List Int),
    (l.flatMap fun y => ls.map fun l' => (x, y, l')).length =
      l.length * ls.length := by
  intro l
  induction l with
  | nil => simp
  | cons y l ihy =>
    simp only [List.flatMap_cons, List.length_append, List.length_map, ihy,
      List.length_cons]
    ring

theorem product3_length (xs ys ls : List Int) :
    (product3 xs ys ls).length = xs.length * ys.length * ls.length := by
  unfold product3
  induction xs with
  | nil => simp
  | cons x xs ihx =>
    simp only [List.flatMap_cons, List.length_append, ihx, flatMap_map_length,
      List.length_cons]
    ring

theorem mem_product3 {xs ys ls : List Int} {c : Int × Int × Int} :
    c ∈ product3 xs ys ls ↔ c.1 ∈ xs ∧ c.2.1 ∈ ys ∧ c.2.2 ∈ ls := by
  obtain ⟨x, y, l⟩ := c
  simp only [product3, List.mem_flatMap, List.mem_map, Prod.mk.injEq]
  constructor
  · rintro ⟨a, ha, b, hb, k, hk, rfl, rfl, rfl⟩; exact ⟨ha, hb, hk⟩
  · rintro ⟨hx, hy, hl⟩; exact ⟨x, hx, y, hy, l, hl, rfl, rfl, rfl⟩

/-- A tile surface, by identity: an image held by the data source or the
renderer's precomputed `default_tile`. -/
inductive TileImage where
  | src (id : Nat)
  | defaultTile
deriving DecidableEq, Repr

/-- Outcome of `data.get_tile_image(position)`: an image, the distinct
non-erroring "absent" outcome (`None`, which is falsy), or a raised
`ValueError`. -/
inductive TileOutcome where
  | img (id : Nat)
  | absent
  | err
deriving DecidableEq, Repr

/-- `AbstractRenderer._get_tile_image`: forwards the data source's result
and turns a raised `ValueError` into the (truthy) `default_tile`.  The
embedding is a total function: the `try/except ValueError` means tile
fetching never propagates the data source's error to the caller. -/
def getTileImage (src : Int × Int × Int → TileOutcome)
    (p : Int × Int × Int) : Option TileImage :=
  match src p with
  | .img i => some (.src i)
  | .absent => none
  | .err => some .defaultTile

/-- One pixel-level mutation of the off-screen buffer performed by
`_blit_tiles`: a tile blit, or a colorkey fill of one cell rectangle. -/
inductive BufferOp where
  | blit (img : TileImage) (pos : Int × Int)
  | fill (rect : PRect)
deriving DecidableEq, Repr

/-- `OrthogonalRenderer._blit_tiles`, branch without a colorkey: for each
`(x, y, l)` drained from the queue, fetch the image and blit it at
`(x*tw - ltw, y*th - tth)` if it is truthy (`if tile:`); `None` results
are skipped without touching the buffer. -/
def blitTilesNoCK (src : Int × Int × Int → TileOutcome) (tw th ltw tth : Int)
    (queue : List (Int × Int × Int)) : List BufferOp :=
  queue.flatMap (fun c =>
    match getTileImage src c with
    | some tile => [.blit tile (c.1 * tw - ltw, c.2.1 * th - tth)]
    | none => [])

/-- `OrthogonalRenderer._blit_tiles`, colorkey branch: tracks the set of
`(x, y)` cells that already received some tile (`old_tiles`); a truthy
tile on layer 0 first fills the cell with the colorkey, then blits; a
falsy tile on a layer `> 0` fills the cell with the colorkey only if no
tile was blitted there yet. -/
def blitTilesCK (src : Int × Int × Int → TileOutcome) (tw th ltw tth : Int)
    (queue : List (Int × Int × Int)) : List BufferOp :=
  (queue.foldl
    (fun (acc : List BufferOp × Finset (Int × Int)) c =>
      match getTileImage src c with
      | some tile =>
          let xx := c.1 * tw - ltw
          let yy := c.2.1 * th - tth
          (acc.1 ++ (if c.2.2 = 0 then [.fill ⟨xx, yy, tw, th⟩] else [])
            ++ [.blit tile (xx, yy)],
           insert (c.1, c.2.1) acc.2)
      | none =>
          if c.2.2 > 0 ∧ (c.1, c.2.1) ∉ acc.2 then
            (acc.1 ++ [.fill ⟨c.1 * tw - ltw, c.2.1 * th - tth, tw, th⟩], acc.2)
          else acc)
    ([], ∅)).1

/-- `OrthogonalRenderer._blit_tiles`: dispatch on colorkey truthiness. -/
def blitTiles (colorkey : Bool) (src : Int × Int × Int → TileOutcome)
    (tw th ltw tth : Int) (queue : List (Int × Int × Int)) : List BufferOp :=
  if colorkey then blitTilesCK src tw th ltw tth queue
  else blitTilesNoCK src tw th ltw tth queue

/-- The mutable state of `AbstractRenderer`/`OrthogonalRenderer` relevant
to camera math, the view rectangle, the redraw queue and the buffer.
Configuration established by `__init__`/`data`/`size` setters is carried
as plain fields: `map_width`/`map_height` are `self.map_rect.width` and
`.height` (map size in pixels), `layers` is
`list(self.data.visible_tile_layers)`, `half_width`/`half_height` are
`[i / 2 for i in size]` (Python 2 floor division).  The pixel contents of
`self._buffer` are observed through two ghost logs: `scrollLog` records
each `self._buffer.scroll(dx, dy)` call and `blitLog` the tile
coordinates drained from the queue by `_flush`. -/
structure RendererState where
  padding : Int
  clamp_camera : Bool
  flush_on_draw : Bool
  tile_width : Int
  tile_height : Int
  map_width : Int
  map_height : Int
  layers : List Int
  half_width : Int
  half_height : Int
  view : PRect
  idle : Bool
  blank : Bool
  offset_x : Int
  offset_y : Int
  previous_x : Int
  previous_y : Int
  centered_point : Option (Int × Int)
  queue : Option (List (Int × Int × Int))
  scrollLog : List (Int × Int)
  blitLog : List (Int × Int × Int)
deriving Repr, DecidableEq

namespace Renderer

/-- `AbstractRenderer.center(point)`: records the requested point only;
reconciliation is deferred to the next `draw()`. -/
def center (s : RendererState) (point : Int × Int) : RendererState :=
  { s with centered_point := some point }

/-- The camera clamp from `_center_map` (`if self.clamp_camera: …`),
x axis. -/
def clampX (s : RendererState) (x : Int) : Int :=
  if s.clamp_camera then
    if x < s.half_width then s.half_width
    else if x + s.half_width > s.map_width then s.map_width - s.half_width
    else x
  else x

/-- The camera clamp from `_center_map`, y axis. -/
def clampY (s : RendererState) (y : Int) : Int :=
  if s.clamp_camera then
    if y < s.half_height then s.half_height
    else if y + s.half_height > s.map_height then s.map_height - s.half_height
    else y
  else y

/-- `OrthogonalRenderer._get_edge_tiles(offset)`: the bands of tiles to
redraw after a scroll of `(x, y)` tiles; `none` when both deltas are zero
(Python returns `None`).  Faithfully keeps the `-1` adjustments of the
source (`view.right - x - 1` and `xrange_(view.bottom, view.bottom - y - 1,
-1)`). -/
def getEdgeTiles (view : PRect) (layers : List Int) (offset : Int × Int) :
    Option (List (Int × Int × Int)) :=
  let x := offset.1
  let y := offset.2
  let queue : Option (List (Int × Int × Int)) :=
    if x > 0 then
      some (product3 (intRange (view.right - x - 1) view.right)
        (intRange view.top view.bottom) layers)
    else if x < 0 then
      some (product3 (intRange view.left (view.left - x))
        (intRange view.top view.bottom) layers)
    else none
  if y > 0 then
    let p := product3 (intRange view.left view.right)
      (intRangeDesc view.bottom (view.bottom - y - 1)) layers
    some (match queue with | none => p | some q => p ++ q)
  else if y < 0 then
    let p := product3 (intRange view.left view.right)
      (intRange view.top (view.top - y)) layers
    some (match queue with | none => p | some q => p ++ q)
  else queue

/-- `OrthogonalRenderer._get_filled_queue()`:
`product(xrange_(view.left, view.right), xrange_(view.top, view.bottom),
visible_tile_layers)`. -/
def getFilledQueue (view : PRect) (layers : List Int) :
    List (Int × Int × Int) :=
  product3 (intRange view.left view.right) (intRange view.top view.bottom)
    layers

/-- `update_queue(iterator)`: start a queue or chain onto the existing
one. -/
def updateQueue (s : RendererState) (tiles : List (Int × Int × Int)) :
    RendererState :=
  match s.queue with
  | none => { s with queue := some tiles }
  | some q => { s with queue := some (q ++ tiles) }

/-- `OrthogonalRenderer._center_map(point)` over integer pixel points
(`int(round(i, 0))` is the identity on integers).  `hpad` is
`int(self.padding / 2)` (Python 2 floor division); `divmod` is floored
division with remainder.  When the rounded/clamped point equals the
previous one the method returns early with `_idle = True`.  Otherwise the
view is shifted by the tile delta, the buffer is scrolled (recorded in
`scrollLog`) and the edge tiles of the *moved* view are chained onto the
queue; `_get_edge_tiles` cannot return `None` there since `(dx, dy) ≠
(0, 0)`, so the `getD []` totalization is never exercised. -/
def centerMap (s : RendererState) (point : Int × Int) : RendererState :=
  let x := clampX s point.1
  let y := clampY s point.2
  if x = s.previous_x ∧ y = s.previous_y then
    { s with idle := true }
  else
    let hpad := Int.fdiv s.padding 2
    let tw := s.tile_width
    let th := s.tile_height
    let left := Int.fdiv (x - s.half_width) tw
    let offx := Int.fmod (x - s.half_width) tw
    let top := Int.fdiv (y - s.half_height) th
    let offy := Int.fmod (y - s.half_height) th
    let dx := left - hpad - s.view.left
    let dy := top - hpad - s.view.top
    let s1 := { s with idle := false,
                       offset_x := offx + hpad * tw,
                       offset_y := offy + hpad * th }
    let s2 :=
      if 1 ≤ |dx| ∨ 1 ≤ |dy| then
        let view := s1.view.move dx dy
        let s' := { s1 with view := view,
                            scrollLog := s1.scrollLog ++ [(-dx * tw, -dy * th)] }
        updateQueue s' ((getEdgeTiles view s'.layers (dx, dy)).getD [])
      else s1
    { s2 with previous_x := x, previous_y := y }

/-- `OrthogonalRenderer.scroll(vector)`:
`self.center((vector[0] + self._previous_x, vector[1] +
self._previous_y))`. -/
def scroll (s : RendererState) (vector : Int × Int) : RendererState :=
  center s (vector.1 + s.previous_x, vector.2 + s.previous_y)

/-- `_flush()`: drain the whole queue into the buffer via `_blit_tiles`;
the drained coordinates are appended to the ghost `blitLog`. -/
def flushQ (s : RendererState) : RendererState :=
  match s.queue with
  | none => s
  | some q => { s with queue := none, blitLog := s.blitLog ++ q }

/-- `redraw()`: replace the queue with the whole view and flush. -/
def redrawAll (s : RendererState) : RendererState :=
  flushQ { s with queue := some (getFilledQueue s.view s.layers) }

/-- The state transition of `draw()` (view size already configured),
split in two phases as in the source body: first, the BLANK branch
refills and drains the queue and clears the blank flag, leaving any
pending `center()` point unconsumed, while otherwise a pending point is
reconciled by `_center_map` and cleared (`drawStep`); then the queue is
flushed when a queue object exists (a non-`None` iterator is truthy even
when exhausted) and `flush_on_draw` is set (`draw`). -/
def drawStep (s : RendererState) : RendererState :=
  if s.blank then
    { redrawAll s with blank := false }
  else
    match s.centered_point with
    | some p => { centerMap s p with centered_point := none }
    | none => s

def draw (s : RendererState) : RendererState :=
  let s1 := drawStep s
  if s1.queue.isSome ∧ s1.flush_on_draw then flushQ s1 else s1

/-- The state established by `__init__` followed by the `size` property
setter: `half_width/height = size / 2`, a fresh view of
`ceil(buffer_size / tile_size)` tiles at the origin (Python 2: `/` is
floor division on ints and `ceil` of an int is the identity), offsets and
previous point reset to zero, BLANK set, queue `None`. -/
def setSize (padding : Int) (clamp fod : Bool) (tw th mapW mapH : Int)
    (layers : List Int) (w h : Int) : RendererState :=
  { padding := padding, clamp_camera := clamp, flush_on_draw := fod,
    tile_width := tw, tile_height := th, map_width := mapW, map_height := mapH,
    layers := layers,
    half_width := Int.fdiv w 2, half_height := Int.fdiv h 2,
    view := ⟨0, 0, Int.fdiv (w + tw * padding) tw,
             Int.fdiv (h + th * padding) th⟩,
    idle := false, blank := true,
    offset_x := 0, offset_y := 0, previous_x := 0, previous_y := 0,
    centered_point := none, queue := none,
    scrollLog := [], blitLog := [] }

end Renderer

/-- C10: `scroll(v)` is exactly `center((v.x + previous_x, v.y +
previous_y))` for the previously reconciled camera center `previous`:
it only records a pending center point displaced by `v` and leaves
buffer logs, view rectangle, offsets and queue unchanged until the next
`draw()` (so the subsequent `draw()` behaves identically for both). -/
theorem scroll_records_displaced_center (s : RendererState) (v : Int × Int) :
    Renderer.scroll s v =
        Renderer.center s (v.1 + s.previous_x, v.2 + s.previous_y) ∧
    (Renderer.scroll s v).view = s.view ∧
    (Renderer.scroll s v).queue = s.queue ∧
    (Renderer.scroll s v).offset_x = s.offset_x ∧
    (Renderer.scroll s v).offset_y = s.offset_y ∧
    (Renderer.scroll s v).scrollLog = s.scrollLog ∧
    (Renderer.scroll s v).blitLog = s.blitLog ∧
    (Renderer.scroll s v).previous_x = s.previous_x ∧
    (Renderer.scroll s v).previous_y = s.previous_y ∧
    (Renderer.scroll s v).centered_point =
        some (v.1 + s.previous_x, v.2 + s.previous_y) ∧
    Renderer.draw (Renderer.scroll s v) =
        Renderer.draw (Renderer.center s (v.1 + s.previous_x, v.2 + s.previous_y)) :=
  ⟨rfl, rfl, rfl, rfl, rfl, rfl, rfl, rfl, rfl, rfl, rfl⟩

/-- A configured 10×10-tile map with 16×16 tiles, one visible layer, a
5×5-tile view with zero padding, camera previously reconciled at
`(40, 40)` (view origin `(0, 0)`). -/
def c2State : RendererState :=
  { padding := 0, clamp_camera := false, flush_on_draw := true,
    tile_width := 16, tile_height := 16, map_width := 160, map_height := 160,
    layers := [0], half_width := 40, half_height := 40,
    view := ⟨0, 0, 5, 5⟩, idle := true, blank := false,
    offset_x := 0, offset_y := 0, previous_x := 40, previous_y := 40,
    centered_point := none, queue := none, scrollLog := [], blitLog := [] }

/-- C2 counterexample: reconciling a camera move of exactly one tile to
the right (`dx = 1, dy = 0`, view height 5, one visible layer) enqueues
10 tile coordinates — two columns — not the claimed
`5 × 1 = (other-axis view extent) × (visible layer count)`. -/
theorem one_tile_edge_band_counterexample :
    ((Renderer.centerMap c2State (56, 40)).queue.getD []).length = 10 ∧
    ((Renderer.centerMap c2State (56, 40)).queue.getD []).length ≠ 5 * 1 := by
  decide

/-- C2 amended: a one-tile move in the negative direction (`dx = -1` or
`dy = -1`) enqueues exactly `(other-axis view extent) × (layer count)`
tiles, but in the positive direction the `-1` adjustments in
`_get_edge_tiles` make the band two columns/rows wide: `2 × extent ×
layers` (and the bottom band starts at row `view.bottom`, just outside
the view). -/
theorem one_tile_edge_band_sizes (view : PRect) (layers : List Int) :
    ((Renderer.getEdgeTiles view layers (1, 0)).getD []).length
        = 2 * view.h.toNat * layers.length ∧
    ((Renderer.getEdgeTiles view layers (-1, 0)).getD []).length
        = view.h.toNat * layers.length ∧
    ((Renderer.getEdgeTiles view layers (0, 1)).getD []).length
        = 2 * view.w.toNat * layers.length ∧
    ((Renderer.getEdgeTiles view layers (0, -1)).getD []).length
        = view.w.toNat * layers.length := by
  have t2 : ((2 : Int)).toNat = 2 := rfl
  have t1 : ((1 : Int)).toNat = 1 := rfl
  have hh : view.bottom - view.top = view.h := by simp [PRect.bottom, PRect.top]
  have hw : view.right - view.left = view.w := by simp [PRect.right, PRect.left]
  refine ⟨?_, ?_, ?_, ?_⟩
  · have e : Renderer.getEdgeTiles view layers (1, 0)
        = some (product3 (intRange (view.right - 1 - 1) view.right)
            (intRange view.top view.bottom) layers) := by
      simp [Renderer.getEdgeTiles]
    rw [e, Option.getD_some, product3_length, intRange_length, intRange_length]
    have h2 : view.right - (view.right - 1 - 1) = 2 := by ring
    rw [h2, hh, t2]
  · have e : Renderer.getEdgeTiles view layers (-1, 0)
        = some (product3 (intRange view.left (view.left + 1))
            (intRange view.top view.bottom) layers) := by
      simp [Renderer.getEdgeTiles]
    rw [e, Option.getD_some, product3_length, intRange_length, intRange_length]
    have h1 : view.left + 1 - view.left = 1 := by ring
    rw [h1, hh, t1, one_mul]
  · have e : Renderer.getEdgeTiles view layers (0, 1)
        = some (product3 (intRange view.left view.right)
            (intRangeDesc view.bottom (view.bottom - 1 - 1)) layers) := by
      simp [Renderer.getEdgeTiles]
    rw [e, Option.getD_some, product3_length, intRange_length,
      intRangeDesc_length]
    have h2 : view.bottom - (view.bottom - 1 - 1) = 2 := by ring
    rw [h2, hw, t2]
    ring
  · have e : Renderer.getEdgeTiles view layers (0, -1)
        = some (product3 (intRange view.left view.right)
            (intRange view.top (view.top + 1)) layers) := by
      simp [Renderer.getEdgeTiles]
    rw [e, Option.getD_some, product3_length, intRange_length, intRange_length]
    have h1 : view.top + 1 - view.top = 1 := by ring
    rw [h1, hw, t1, mul_one]

/-- Modelled from the spec (order comparison for the full-redraw queue):
"iteration order: rows outer, columns inner, layers innermost,
ascending". -/
def specRowOuterQueue (view : PRect) (layers : List Int) :
    List (Int × Int × Int) :=
  (intRange view.top view.bottom).flatMap (fun y =>
    (intRange view.left view.right).flatMap (fun x =>
      layers.map (fun l => (x, y, l))))

/-- C8 counterexample: on a 2×2 view with one layer the full-redraw queue
runs columns outermost (`(0,0),(0,1),(1,0),(1,1)` in `(x, y)`), not rows
outermost as claimed. -/
theorem filled_queue_order_counterexample :
    Renderer.getFilledQueue ⟨0, 0, 2, 2⟩ [0] ≠
        specRowOuterQueue ⟨0, 0, 2, 2⟩ [0] ∧
    Renderer.getFilledQueue ⟨0, 0, 2, 2⟩ [0] =
        [(0, 0, 0), (0, 1, 0), (1, 0, 0), (1, 1, 0)] := by
  decide

/-- C8 amended: the BLANK-draw full-redraw queue enumerates every tile
coordinate of the view across all visible layers — it is a permutation of
the row-outer enumeration the spec states — but its actual order is
columns outermost, rows inner, layers innermost (each ascending). -/
theorem filled_queue_enumerates_view (view : PRect) (layers : List Int) :
    (Renderer.getFilledQueue view layers).Perm
        (specRowOuterQueue view layers) ∧
    (∀ x y l : Int, (x, y, l) ∈ Renderer.getFilledQueue view layers ↔
      (view.left ≤ x ∧ x < view.right ∧ view.top ≤ y ∧ y < view.bottom ∧
        l ∈ layers)) := by
  constructor
  · rw [← Multiset.coe_eq_coe]
    show (↑((intRange view.left view.right).flatMap fun x =>
        (intRange view.top view.bottom).flatMap fun y =>
          layers.map fun l => (x, y, l)) : Multiset (Int × Int × Int)) =
      ↑((intRange view.top view.bottom).flatMap fun y =>
        (intRange view.left view.right).flatMap fun x =>
          layers.map fun l => (x, y, l))
    simp only [← Multiset.coe_bind]
    exact Multiset.bind_bind _ _
  · intro x y l
    rw [show ((x, y, l) : Int × Int × Int) ∈
          Renderer.getFilledQueue view layers ↔
        x ∈ intRange view.left view.right ∧
          y ∈ intRange view.top view.bottom ∧ l ∈ layers from mem_product3]
    rw [mem_intRange, mem_intRange]
    tauto

/-- Two small disjoint rectangles used for the depth-0 counterexample. -/
def c9Items : List PRect := [⟨0, 0, 1, 1⟩, ⟨10, 10, 1, 1⟩]

/-- C9 counterexample: building with maximum recursion depth 0 does *not*
store all items flat at the root — the decrement happens before the
`depth == 0` test, so depth 0 becomes −1 and recursion continues: the
root keeps no items and grows NW and SE children. -/
theorem depth_zero_not_flat_counterexample :
    ((fastQuadTreeInit 20 c9Items 0 none).map FastQuadTree.items)
        = some [] ∧
    ((fastQuadTreeInit 20 c9Items 0 none).bind FastQuadTree.nw).isSome
        = true ∧
    ((fastQuadTreeInit 20 c9Items 0 none).bind FastQuadTree.se).isSome
        = true := by
  decide

/-- C9 amended: the flat linear-scan degeneration happens at depth 1 (the
passed-in depth is decremented *before* the `depth == 0` test), and
recursion also stops when a branch receives no items; a passed-in depth
of 0 is decremented to −1 and never triggers the depth stop. -/
theorem depth_one_or_empty_flat (fuel : Nat) (hfuel : 1 ≤ fuel)
    (items : List PRect) (depth : Int) (b b2 : Option PRect) :
    fastQuadTreeInit fuel items 1 b =
        some (.node items 0 0 none none none none) ∧
    fastQuadTreeInit fuel [] depth b2 =
        some (.node [] 0 0 none none none none) := by
  obtain ⟨n, rfl⟩ : ∃ n, fuel = n + 1 := ⟨fuel - 1, by omega⟩
  constructor <;> simp [fastQuadTreeInit]

/-- Witness for the amended C9 statement at concrete inputs. -/
theorem depth_one_or_empty_flat_witness :
    fastQuadTreeInit 1 [⟨0, 0, 1, 1⟩] 1 none =
        some (.node [⟨0, 0, 1, 1⟩] 0 0 none none none none) ∧
    fastQuadTreeInit 1 ([] : List PRect) 4 none =
        some (.node [] 0 0 none none none none) :=
  depth_one_or_empty_flat 1 (by decide) [⟨0, 0, 1, 1⟩] 4 none none

/-- A data source with the "absent" (non-erroring) outcome at `(0,0,0)`
and a raised `ValueError` everywhere else. -/
def c7Src : Int × Int × Int → TileOutcome :=
  fun c => if c = (0, 0, 0) then .absent else .err

/-- C7 counterexample: at a position the data source reports as absent
(a non-erroring `None`), the renderer does *not* substitute the default
tile — the `if tile:` test skips the blit entirely, so nothing is drawn
into the buffer for that queue entry. -/
theorem absent_tile_not_defaulted_counterexample :
    getTileImage c7Src (0, 0, 0) = none ∧
    blitTilesNoCK c7Src 16 16 0 0 [(0, 0, 0)] = [] ∧
    blitTilesNoCK c7Src 16 16 0 0 [(0, 0, 0)] ≠
        [.blit .defaultTile (0, 0)] := by
  decide

/-- C7 amended: tile fetching is total — a raised `ValueError` from the
data source is caught and yields the precomputed default tile, which is
then blitted; the *absent* (`None`) outcome yields no image and the blit
is skipped (no default substitution); a real image is blitted as-is. -/
theorem missing_tile_handling (src : Int × Int × Int → TileOutcome)
    (tw th ltw tth x y l : Int) :
    (src (x, y, l) = .err →
      getTileImage src (x, y, l) = some .defaultTile ∧
      blitTilesNoCK src tw th ltw tth [(x, y, l)] =
        [.blit .defaultTile (x * tw - ltw, y * th - tth)]) ∧
    (src (x, y, l) = .absent →
      getTileImage src (x, y, l) = none ∧
      blitTilesNoCK src tw th ltw tth [(x, y, l)] = []) ∧
    (∀ i, src (x, y, l) = .img i →
      blitTilesNoCK src tw th ltw tth [(x, y, l)] =
        [.blit (.src i) (x * tw - ltw, y * th - tth)]) := by
  refine ⟨fun h => ?_, fun h => ?_, fun i h => ?_⟩ <;>
    simp [blitTilesNoCK, getTileImage, h]

/-- Witness for the amended C7 statement at a concrete source. -/
theorem missing_tile_handling_witness :
    getTileImage c7Src (1, 0, 0) = some .defaultTile ∧
    blitTilesNoCK c7Src 16 16 0 0 [(1, 0, 0)] =
        [.blit .defaultTile (16, 0)] :=
  (missing_tile_handling c7Src 16 16 0 0 1 0 0).1 (by decide)

/-- One occlusion-repair blit performed by `_overdraw`: a tile of layer
`tileLayer` re-blitted over a drawable of layer `drawableLayer`. -/
structure OverdrawEvent where
  drawableLayer : Int
  tileLayer : Int
  tile : Int × Int × Int
  pos : Int × Int
deriving DecidableEq, Repr

/-- The local helper `above(x, y): return x > y` in `_overdraw`. -/
def above (x y : Int) : Bool := x > y

/-- `OrthogonalRenderer._overdraw`: after the provisional drawable blits
(`dirty = [(surface_blit(i[0], i[1]), i[2]) for i in surfaces]`), every
drawable rect, moved into buffer-local coordinates by `(-ox, -oy)`, is
queried against the layer quadtree; each hit cell `(x, y, tw, th)`
contributes, for every visible tile layer `l` with `above(l, layer)`, a
repair blit of tile `(x / tw + left, y / th + top, l)` (Python 2 floor
division) at `(x + ox, y + oy)` when the fetched tile is truthy.  The
hits are a Python set, iterated in no defined order, so the events form a
multiset. -/
def overdrawRepairs (t : FastQuadTree) (tileLayers : List Int)
    (src : Int × Int × Int → TileOutcome) (left top ox oy : Int)
    (surfaces : List (PRect × Int)) : Multiset OverdrawEvent :=
  (surfaces : Multiset (PRect × Int)).bind (fun sfc =>
    (hitQT t (sfc.1.move (-ox) (-oy))).val.bind (fun r =>
      ((tileLayers.filter (fun i => above i sfc.2)) :
          Multiset Int).bind (fun l =>
        match getTileImage src
            (Int.fdiv r.x r.w + left, Int.fdiv r.y r.h + top, l) with
        | some _ =>
            {⟨sfc.2, l,
              (Int.fdiv r.x r.w + left, Int.fdiv r.y r.h + top, l),
              (r.x + ox, r.y + oy)⟩}
        | none => 0)))

/-- C6: during occlusion repair only tiles from visible layers strictly
greater than the drawable\'s layer are re-blitted over it; a tile of equal
layer is never blitted (the drawable wins ties). -/
theorem overdraw_strictly_above (t : FastQuadTree) (tileLayers : List Int)
    (src : Int × Int × Int → TileOutcome) (left top ox oy : Int)
    (surfaces : List (PRect × Int)) :
    ∀ e ∈ overdrawRepairs t tileLayers src left top ox oy surfaces,
      e.drawableLayer < e.tileLayer := by
  intro e he
  simp only [overdrawRepairs, Multiset.mem_bind, Multiset.mem_coe] at he
  obtain ⟨sfc, hs, r, hr, l, hl, hmatch⟩ := he
  have hab : above l sfc.2 = true := (List.mem_filter.mp hl).2
  have hlt : sfc.2 < l := by simpa [above] using hab
  revert hmatch
  cases getTileImage src (Int.fdiv r.x r.w + left, Int.fdiv r.y r.h + top, l) with
  | none => simp
  | some img =>
    intro hmatch
    rw [Multiset.mem_singleton] at hmatch
    subst hmatch
    exact hlt

/-- A two-cell literal tree and a drawable covering both cells, for the
C6 witness. -/
def c6Tree : FastQuadTree :=
  .node [⟨0, 0, 16, 16⟩, ⟨16, 16, 16, 16⟩] 16 16 none none none none

/-- Witness for C6 at a concrete overdraw event (drawable layer 1, tile
layer 2). -/
theorem overdraw_strictly_above_witness :
    (⟨1, 2, (0, 0, 2), (0, 0)⟩ : OverdrawEvent).drawableLayer <
        (⟨1, 2, (0, 0, 2), (0, 0)⟩ : OverdrawEvent).tileLayer := by
  apply overdraw_strictly_above c6Tree [0, 1, 2] (fun _ => .img 0) 0 0 0 0
    [(⟨0, 0, 32, 32⟩, 1)] ⟨1, 2, (0, 0, 2), (0, 0)⟩
  simp only [overdrawRepairs, Multiset.mem_bind, Multiset.mem_coe]
  refine ⟨(⟨0, 0, 32, 32⟩, 1), by simp, ⟨0, 0, 16, 16⟩, ?_, 2, by decide, ?_⟩
  · rw [Finset.mem_val]
    simp only [c6Tree]
    rw [mem_hitQT_node]
    exact Or.inl ⟨by decide, by decide⟩
  · rw [show getTileImage (fun _ => TileOutcome.img 0)
        (Int.fdiv (0 : Int) 16 + 0, Int.fdiv (0 : Int) 16 + 0, (2 : Int))
        = some (.src 0) from rfl]
    rw [Multiset.mem_singleton]
    decide

/-- When the rounded/clamped point equals the previous one, `_center_map`
only sets `_idle = True`. -/
theorem centerMap_early (s : RendererState) (p : Int × Int)
    (h : Renderer.clampX s p.1 = s.previous_x ∧
         Renderer.clampY s p.2 = s.previous_y) :
    Renderer.centerMap s p = { s with idle := true } := by
  simp only [Renderer.centerMap]
  rw [if_pos h]

/-- When it does reconcile, `_center_map` stores the renormalized offsets
`divmod(point − half, tile) + hpad·tile`. -/
theorem centerMap_offset (s : RendererState) (p : Int × Int)
    (h : ¬(Renderer.clampX s p.1 = s.previous_x ∧
           Renderer.clampY s p.2 = s.previous_y)) :
    (Renderer.centerMap s p).offset_x
        = Int.fmod (Renderer.clampX s p.1 - s.half_width) s.tile_width
            + Int.fdiv s.padding 2 * s.tile_width ∧
    (Renderer.centerMap s p).offset_y
        = Int.fmod (Renderer.clampY s p.2 - s.half_height) s.tile_height
            + Int.fdiv s.padding 2 * s.tile_height := by
  simp only [Renderer.centerMap]
  rw [if_neg h]
  constructor <;>
  · split <;> simp only [Renderer.updateQueue] <;> first
      | rfl
      | (split <;> rfl)

/-- `_center_map` always ends with `_previous = (x, y)`, the
rounded/clamped requested point (on the early-return path they were
already equal). -/
theorem centerMap_previous (s : RendererState) (p : Int × Int) :
    (Renderer.centerMap s p).previous_x = Renderer.clampX s p.1 ∧
    (Renderer.centerMap s p).previous_y = Renderer.clampY s p.2 := by
  simp only [Renderer.centerMap]
  split
  case isTrue h => exact ⟨h.1.symm, h.2.symm⟩
  case isFalse h =>
    constructor <;>
    · split <;> simp only [Renderer.updateQueue] <;> first
        | rfl
        | (split <;> rfl)

/-- A configured state with clamping disabled, 16×16 tiles, padding 4. -/
def c4State : RendererState :=
  { padding := 4, clamp_camera := false, flush_on_draw := true,
    tile_width := 16, tile_height := 16, map_width := 160, map_height := 160,
    layers := [0], half_width := 40, half_height := 40,
    view := ⟨0, 0, 9, 9⟩, idle := true, blank := false,
    offset_x := 0, offset_y := 0, previous_x := 40, previous_y := 40,
    centered_point := none, queue := none, scrollLog := [], blitLog := [] }

/-- C4: after `_center_map` reconciles an integer camera point (clamping
off, so negative coordinates pass through), the sub-tile offset on each
axis equals the floored-division remainder of `(point − half_viewport)`
by the tile size plus the fixed `hpad·tile` margin, hence
`offset − hpad·tile ∈ [0, tile_size)`. -/
theorem offset_renormalized (s : RendererState) (p : Int × Int)
    (htw : 0 < s.tile_width) (hth : 0 < s.tile_height)
    (hclamp : s.clamp_camera = false)
    (hmoved : ¬(p.1 = s.previous_x ∧ p.2 = s.previous_y)) :
    (Renderer.centerMap s p).offset_x
        = Int.fmod (p.1 - s.half_width) s.tile_width
            + Int.fdiv s.padding 2 * s.tile_width ∧
    (Renderer.centerMap s p).offset_y
        = Int.fmod (p.2 - s.half_height) s.tile_height
            + Int.fdiv s.padding 2 * s.tile_height ∧
    Int.fdiv s.padding 2 * s.tile_width ≤ (Renderer.centerMap s p).offset_x ∧
    (Renderer.centerMap s p).offset_x
        < Int.fdiv s.padding 2 * s.tile_width + s.tile_width ∧
    Int.fdiv s.padding 2 * s.tile_height ≤ (Renderer.centerMap s p).offset_y ∧
    (Renderer.centerMap s p).offset_y
        < Int.fdiv s.padding 2 * s.tile_height + s.tile_height := by
  have hx : Renderer.clampX s p.1 = p.1 := by simp [Renderer.clampX, hclamp]
  have hy : Renderer.clampY s p.2 = p.2 := by simp [Renderer.clampY, hclamp]
  have h' : ¬(Renderer.clampX s p.1 = s.previous_x ∧
      Renderer.clampY s p.2 = s.previous_y) := by
    rw [hx, hy]; exact hmoved
  obtain ⟨e1, e2⟩ := centerMap_offset s p h'
  rw [hx] at e1
  rw [hy] at e2
  have b1 := Int.fmod_nonneg' (p.1 - s.half_width) htw
  have b2 := Int.fmod_lt_of_pos (p.1 - s.half_width) htw
  have b3 := Int.fmod_nonneg' (p.2 - s.half_height) hth
  have b4 := Int.fmod_lt_of_pos (p.2 - s.half_height) hth
  exact ⟨e1, e2, by omega, by omega, by omega, by omega⟩

/-- Witness for C4 at a negative camera point. -/
theorem offset_renormalized_witness :
    (Renderer.centerMap c4State (-5, -7)).offset_x
        = Int.fmod ((-5 : Int) - 40) 16 + Int.fdiv 4 2 * 16 ∧
    (Renderer.centerMap c4State (-5, -7)).offset_y
        = Int.fmod ((-7 : Int) - 40) 16 + Int.fdiv 4 2 * 16 ∧
    Int.fdiv 4 2 * 16 ≤ (Renderer.centerMap c4State (-5, -7)).offset_x ∧
    (Renderer.centerMap c4State (-5, -7)).offset_x
        < Int.fdiv 4 2 * 16 + 16 ∧
    Int.fdiv 4 2 * 16 ≤ (Renderer.centerMap c4State (-5, -7)).offset_y ∧
    (Renderer.centerMap c4State (-5, -7)).offset_y
        < Int.fdiv 4 2 * 16 + 16 :=
  offset_renormalized c4State (-5, -7) (by decide) (by decide) (by decide)
    (by decide)

/-- The clamp only reads the camera configuration fields. -/
theorem clampX_congr (s s' : RendererState) (z : Int)
    (h1 : s.clamp_camera = s'.clamp_camera) (h2 : s.half_width = s'.half_width)
    (h3 : s.map_width = s'.map_width) :
    Renderer.clampX s z = Renderer.clampX s' z := by
  simp [Renderer.clampX, h1, h2, h3]

theorem clampY_congr (s s' : RendererState) (z : Int)
    (h1 : s.clamp_camera = s'.clamp_camera)
    (h2 : s.half_height = s'.half_height)
    (h3 : s.map_height = s'.map_height) :
    Renderer.clampY s z = Renderer.clampY s' z := by
  simp [Renderer.clampY, h1, h2, h3]

/-- `_center_map` never touches the configuration, the blank flag or the
flush mode. -/
theorem centerMap_config (s : RendererState) (p : Int × Int) :
    (Renderer.centerMap s p).clamp_camera = s.clamp_camera ∧
    (Renderer.centerMap s p).half_width = s.half_width ∧
    (Renderer.centerMap s p).half_height = s.half_height ∧
    (Renderer.centerMap s p).map_width = s.map_width ∧
    (Renderer.centerMap s p).map_height = s.map_height ∧
    (Renderer.centerMap s p).blank = s.blank ∧
    (Renderer.centerMap s p).flush_on_draw = s.flush_on_draw := by
  simp only [Renderer.centerMap]
  split
  · exact ⟨rfl, rfl, rfl, rfl, rfl, rfl, rfl⟩
  · refine ⟨?_, ?_, ?_, ?_, ?_, ?_, ?_⟩ <;>
    · split <;> simp only [Renderer.updateQueue] <;> first
        | rfl
        | (split <;> rfl)

/-- `_flush` empties the queue into the blit log and changes nothing
else. -/
theorem flushQ_eq (s : RendererState) :
    Renderer.flushQ s =
      { s with queue := none, blitLog := s.blitLog ++ s.queue.getD [] } := by
  rcases s with ⟨pad, cc, fod, tw, th, mw, mh, ls, hw, hh, v, idl, bl, ox, oy,
    px, py, cp, q, sl, blog⟩
  cases q <;> simp [Renderer.flushQ]

/-- Fields of the first `draw()` after a `center(p)` on a non-BLANK
state with flush-on-draw: the queue ends empty, the configuration is
untouched and `_previous` holds the rounded/clamped point. -/
theorem draw_center_fields (s : RendererState) (p : Int × Int)
    (hblank : s.blank = false) (hflush : s.flush_on_draw = true) :
    (Renderer.draw (Renderer.center s p)).queue = none ∧
    (Renderer.draw (Renderer.center s p)).clamp_camera = s.clamp_camera ∧
    (Renderer.draw (Renderer.center s p)).half_width = s.half_width ∧
    (Renderer.draw (Renderer.center s p)).half_height = s.half_height ∧
    (Renderer.draw (Renderer.center s p)).map_width = s.map_width ∧
    (Renderer.draw (Renderer.center s p)).map_height = s.map_height ∧
    (Renderer.draw (Renderer.center s p)).blank = false ∧
    (Renderer.draw (Renderer.center s p)).flush_on_draw = true ∧
    (Renderer.draw (Renderer.center s p)).previous_x
        = Renderer.clampX s p.1 ∧
    (Renderer.draw (Renderer.center s p)).previous_y
        = Renderer.clampY s p.2 := by
  have hbfalse : ¬((Renderer.center s p).blank = true) := by
    rw [show (Renderer.center s p).blank = s.blank from rfl, hblank]
    simp
  have hstep : Renderer.drawStep (Renderer.center s p)
      = { Renderer.centerMap (Renderer.center s p) p with
            centered_point := none } := by
    unfold Renderer.drawStep
    rw [if_neg hbfalse]
    rfl
  obtain ⟨hc1, hc2, hc3, hc4, hc5, hc6, hc7⟩ :=
    centerMap_config (Renderer.center s p) p
  obtain ⟨hp1, hp2⟩ := centerMap_previous (Renderer.center s p) p
  have hfod : (Renderer.centerMap (Renderer.center s p) p).flush_on_draw
      = true := hc7.trans hflush
  simp only [Renderer.draw, hstep]
  split
  · rw [flushQ_eq]
    exact ⟨rfl, hc1, hc2, hc3, hc4, hc5, hc6.trans hblank, hfod,
      hp1.trans (clampX_congr _ _ _ rfl rfl rfl),
      hp2.trans (clampY_congr _ _ _ rfl rfl rfl)⟩
  case isFalse h =>
    refine ⟨?_, hc1, hc2, hc3, hc4, hc5, hc6.trans hblank, hfod,
      hp1.trans (clampX_congr _ _ _ rfl rfl rfl),
      hp2.trans (clampY_congr _ _ _ rfl rfl rfl)⟩
    rcases Decidable.not_and_iff_or_not.mp h with h' | h'
    · exact Option.not_isSome_iff_eq_none.mp h'
    · exact absurd hfod h'

/-- A `draw()` after `center(p)` whose rounded/clamped point matches the
previous reconciliation, on a non-BLANK state with an empty queue, only
sets IDLE and clears the pending point. -/
theorem draw_center_early (s1 : RendererState) (p : Int × Int)
    (hb : s1.blank = false) (hq : s1.queue = none)
    (hx : Renderer.clampX (Renderer.center s1 p) p.1 = s1.previous_x)
    (hy : Renderer.clampY (Renderer.center s1 p) p.2 = s1.previous_y) :
    Renderer.draw (Renderer.center s1 p)
      = { s1 with idle := true, centered_point := none } := by
  have hbfalse : ¬((Renderer.center s1 p).blank = true) := by
    rw [show (Renderer.center s1 p).blank = s1.blank from rfl, hb]
    simp
  have hcm : Renderer.centerMap (Renderer.center s1 p) p
      = { Renderer.center s1 p with idle := true } :=
    centerMap_early (Renderer.center s1 p) p ⟨hx, hy⟩
  have hstep : Renderer.drawStep (Renderer.center s1 p)
      = { s1 with idle := true, centered_point := none } := by
    unfold Renderer.drawStep
    rw [if_neg hbfalse]
    show ({ Renderer.centerMap (Renderer.center s1 p) p with
        centered_point := none } : RendererState)
      = { s1 with idle := true, centered_point := none }
    rw [hcm]
    rfl
  have hQ : ({ s1 with
      idle := true, centered_point := none } : RendererState).queue
        = none := hq
  simp only [Renderer.draw, hstep]
  rw [hQ]
  simp

/-- C3: after one `center(p)`/`draw()` round has reconciled the camera
(state not BLANK, flush-on-draw enabled), a second `center(p)` with the
same point followed by `draw()` enqueues zero additional tiles and drains
nothing (queue stays `None`, blit log unchanged), performs no buffer
scroll and no view-rectangle shift, leaves the offsets alone, and leaves
the renderer IDLE with an empty queue. -/
theorem center_same_point_idempotent (s0 : RendererState) (p : Int × Int)
    (hblank : s0.blank = false) (hflush : s0.flush_on_draw = true) :
    (Renderer.draw (Renderer.center (Renderer.draw (Renderer.center s0 p)) p)).idle
        = true ∧
    (Renderer.draw (Renderer.center (Renderer.draw (Renderer.center s0 p)) p)).queue
        = none ∧
    (Renderer.draw (Renderer.center (Renderer.draw (Renderer.center s0 p)) p)).view
        = (Renderer.draw (Renderer.center s0 p)).view ∧
    (Renderer.draw (Renderer.center (Renderer.draw (Renderer.center s0 p)) p)).scrollLog
        = (Renderer.draw (Renderer.center s0 p)).scrollLog ∧
    (Renderer.draw (Renderer.center (Renderer.draw (Renderer.center s0 p)) p)).blitLog
        = (Renderer.draw (Renderer.center s0 p)).blitLog ∧
    (Renderer.draw (Renderer.center (Renderer.draw (Renderer.center s0 p)) p)).offset_x
        = (Renderer.draw (Renderer.center s0 p)).offset_x ∧
    (Renderer.draw (Renderer.center (Renderer.draw (Renderer.center s0 p)) p)).offset_y
        = (Renderer.draw (Renderer.center s0 p)).offset_y := by
  obtain ⟨hq1, hc1, hc2, hc3, hc4, hc5, hb1, hf1, hpx, hpy⟩ :=
    draw_center_fields s0 p hblank hflush
  generalize hS : Renderer.draw (Renderer.center s0 p) = s1 at *
  have hx : Renderer.clampX (Renderer.center s1 p) p.1 = s1.previous_x := by
    rw [clampX_congr (Renderer.center s1 p) s0 p.1 hc1 hc2 hc4]
    exact hpx.symm
  have hy : Renderer.clampY (Renderer.center s1 p) p.2 = s1.previous_y := by
    rw [clampY_congr (Renderer.center s1 p) s0 p.2 hc1 hc3 hc5]
    exact hpy.symm
  rw [draw_center_early s1 p hb1 hq1 hx hy]
  exact ⟨rfl, hq1, rfl, rfl, rfl, rfl, rfl⟩

/-- Witness for C3 on a concrete configured state and point. -/
theorem center_same_point_idempotent_witness :
    (Renderer.draw (Renderer.center (Renderer.draw (Renderer.center c2State (56, 40))) (56, 40))).idle
        = true ∧
    (Renderer.draw (Renderer.center (Renderer.draw (Renderer.center c2State (56, 40))) (56, 40))).queue
        = none ∧
    (Renderer.draw (Renderer.center (Renderer.draw (Renderer.center c2State (56, 40))) (56, 40))).view
        = (Renderer.draw (Renderer.center c2State (56, 40))).view ∧
    (Renderer.draw (Renderer.center (Renderer.draw (Renderer.center c2State (56, 40))) (56, 40))).scrollLog
        = (Renderer.draw (Renderer.center c2State (56, 40))).scrollLog ∧
    (Renderer.draw (Renderer.center (Renderer.draw (Renderer.center c2State (56, 40))) (56, 40))).blitLog
        = (Renderer.draw (Renderer.center c2State (56, 40))).blitLog ∧
    (Renderer.draw (Renderer.center (Renderer.draw (Renderer.center c2State (56, 40))) (56, 40))).offset_x
        = (Renderer.draw (Renderer.center c2State (56, 40))).offset_x ∧
    (Renderer.draw (Renderer.center (Renderer.draw (Renderer.center c2State (56, 40))) (56, 40))).offset_y
        = (Renderer.draw (Renderer.center c2State (56, 40))).offset_y :=
  center_same_point_idempotent c2State (56, 40) (by decide) (by decide)

/-- A tile coordinate within the map bounds `[0, W) × [0, H)` (in tiles)
extended by the padding margin on every side. -/
def tileInBounds (pad W H : Int) (c : Int × Int × Int) : Prop :=
  -pad ≤ c.1 ∧ c.1 < W + pad ∧ -pad ≤ c.2.1 ∧ c.2.1 < H + pad

instance (pad W H : Int) (c : Int × Int × Int) :
    Decidable (tileInBounds pad W H c) := by
  unfold tileInBounds; infer_instance

/-- One public camera call: `center(p)` or `draw(...)`. -/
inductive RendererOp where
  | centerOp (p : Int × Int)
  | drawOp
deriving DecidableEq, Repr

/-- A sequence of `center()`/`draw()` calls against the renderer. -/
def runOps : RendererState → List RendererOp → RendererState
  | s, [] => s
  | s, op :: rest =>
      runOps (match op with
        | .centerOp p => Renderer.center s p
        | .drawOp => Renderer.draw s) rest

theorem mem_intRangeDesc {a b x : Int} :
    x ∈ intRangeDesc a b ↔ b < x ∧ x ≤ a := by
  unfold intRangeDesc
  rw [List.mem_map]
  constructor
  · rintro ⟨i, hi, rfl⟩
    have hi' := List.mem_range.mp hi
    omega
  · intro h
    exact ⟨(a - x).toNat, List.mem_range.mpr (by omega), by omega⟩

/-- Every tile enqueued by `_get_edge_tiles` on a view whose current
position satisfies the strong (reconciled) bounds and whose previous
position (`view.x - dx`, `view.y - dy`) satisfies the weak bounds lies
within the map plus the padding margin. -/
theorem getEdgeTiles_bounds (view : PRect) (layers : List Int) (dx dy : Int)
    (W H pad : Int) (c : Int × Int × Int)
    (hxlo : -pad ≤ view.x) (hxhi : view.x + view.w ≤ W + pad - 1)
    (hylo : -pad ≤ view.y) (hyhi : view.y + view.h ≤ H + pad - 1)
    (hoxlo : -pad ≤ view.x - dx) (hoxhi : view.x - dx + view.w ≤ W + pad)
    (hoylo : -pad ≤ view.y - dy) (hoyhi : view.y - dy + view.h ≤ H + pad)
    (hvw : 1 ≤ view.w) (hvh : 1 ≤ view.h)
    (hmem : c ∈ (Renderer.getEdgeTiles view layers (dx, dy)).getD []) :
    tileInBounds pad W H c := by
  have hA : ∀ c' : Int × Int × Int,
      c' ∈ product3 (intRange (view.right - dx - 1) view.right)
        (intRange view.top view.bottom) layers →
      tileInBounds pad W H c' := by
    intro c' hc'
    obtain ⟨h1, h2, -⟩ := mem_product3.mp hc'
    rw [mem_intRange] at h1 h2
    unfold tileInBounds
    simp only [PRect.right, PRect.top, PRect.bottom] at h1 h2
    omega
  have hB : ∀ c' : Int × Int × Int,
      c' ∈ product3 (intRange view.left (view.left - dx))
        (intRange view.top view.bottom) layers →
      tileInBounds pad W H c' := by
    intro c' hc'
    obtain ⟨h1, h2, -⟩ := mem_product3.mp hc'
    rw [mem_intRange] at h1 h2
    unfold tileInBounds
    simp only [PRect.left, PRect.top, PRect.bottom] at h1 h2
    omega
  have hC : ∀ c' : Int × Int × Int,
      c' ∈ product3 (intRange view.left view.right)
        (intRangeDesc view.bottom (view.bottom - dy - 1)) layers →
      tileInBounds pad W H c' := by
    intro c' hc'
    obtain ⟨h1, h2, -⟩ := mem_product3.mp hc'
    rw [mem_intRange] at h1
    rw [mem_intRangeDesc] at h2
    unfold tileInBounds
    simp only [PRect.left, PRect.right, PRect.bottom] at h1 h2
    omega
  have hD : ∀ c' : Int × Int × Int,
      c' ∈ product3 (intRange view.left view.right)
        (intRange view.top (view.top - dy)) layers →
      tileInBounds pad W H c' := by
    intro c' hc'
    obtain ⟨h1, h2, -⟩ := mem_product3.mp hc'
    rw [mem_intRange] at h1 h2
    unfold tileInBounds
    simp only [PRect.left, PRect.right, PRect.top] at h1 h2
    omega
  rcases lt_trichotomy dx 0 with hdx | hdx | hdx <;>
    rcases lt_trichotomy dy 0 with hdy | hdy | hdy
  · have e : Renderer.getEdgeTiles view layers (dx, dy)
        = some (product3 (intRange view.left view.right)
              (intRange view.top (view.top - dy)) layers
            ++ product3 (intRange view.left (view.left - dx))
              (intRange view.top view.bottom) layers) := by
      simp [Renderer.getEdgeTiles, show ¬dx > 0 from by omega,
        show dx < 0 from hdx, show ¬dy > 0 from by omega,
        show dy < 0 from hdy]
    rw [e, Option.getD_some] at hmem
    rcases List.mem_append.mp hmem with h | h
    · exact hD c h
    · exact hB c h
  · have e : Renderer.getEdgeTiles view layers (dx, dy)
        = some (product3 (intRange view.left (view.left - dx))
            (intRange view.top view.bottom) layers) := by
      simp [Renderer.getEdgeTiles, show ¬dx > 0 from by omega,
        show dx < 0 from hdx, hdy]
    rw [e, Option.getD_some] at hmem
    exact hB c hmem
  · have e : Renderer.getEdgeTiles view layers (dx, dy)
        = some (product3 (intRange view.left view.right)
              (intRangeDesc view.bottom (view.bottom - dy - 1)) layers
            ++ product3 (intRange view.left (view.left - dx))
              (intRange view.top view.bottom) layers) := by
      simp [Renderer.getEdgeTiles, show ¬dx > 0 from by omega,
        show dx < 0 from hdx, show dy > 0 from hdy]
    rw [e, Option.getD_some] at hmem
    rcases List.mem_append.mp hmem with h | h
    · exact hC c h
    · exact hB c h
  · have e : Renderer.getEdgeTiles view layers (dx, dy)
        = some (product3 (intRange view.left view.right)
            (intRange view.top (view.top - dy)) layers) := by
      simp [Renderer.getEdgeTiles, hdx, show ¬dy > 0 from by omega,
        show dy < 0 from hdy]
    rw [e, Option.getD_some] at hmem
    exact hD c hmem
  · have e : Renderer.getEdgeTiles view layers (dx, dy) = none := by
      simp [Renderer.getEdgeTiles, hdx, hdy]
    rw [e, Option.getD_none] at hmem
    simp at hmem
  · have e : Renderer.getEdgeTiles view layers (dx, dy)
        = some (product3 (intRange view.left view.right)
            (intRangeDesc view.bottom (view.bottom - dy - 1)) layers) := by
      simp [Renderer.getEdgeTiles, hdx, show dy > 0 from hdy]
    rw [e, Option.getD_some] at hmem
    exact hC c hmem
  · have e : Renderer.getEdgeTiles view layers (dx, dy)
        = some (product3 (intRange view.left view.right)
              (intRange view.top (view.top - dy)) layers
            ++ product3 (intRange (view.right - dx - 1) view.right)
              (intRange view.top view.bottom) layers) := by
      simp [Renderer.getEdgeTiles, show dx > 0 from hdx,
        show ¬dy > 0 from by omega, show dy < 0 from hdy]
    rw [e, Option.getD_some] at hmem
    rcases List.mem_append.mp hmem with h | h
    · exact hD c h
    · exact hA c h
  · have e : Renderer.getEdgeTiles view layers (dx, dy)
        = some (product3 (intRange (view.right - dx - 1) view.right)
            (intRange view.top view.bottom) layers) := by
      simp [Renderer.getEdgeTiles, show dx > 0 from hdx, hdy]
    rw [e, Option.getD_some] at hmem
    exact hA c hmem
  · have e : Renderer.getEdgeTiles view layers (dx, dy)
        = some (product3 (intRange view.left view.right)
              (intRangeDesc view.bottom (view.bottom - dy - 1)) layers
            ++ product3 (intRange (view.right - dx - 1) view.right)
              (intRange view.top view.bottom) layers) := by
      simp [Renderer.getEdgeTiles, show dx > 0 from hdx,
        show dy > 0 from hdy]
    rw [e, Option.getD_some] at hmem
    rcases List.mem_append.mp hmem with h | h
    · exact hC c h
    · exact hA c h

/-- With clamping enabled and a map at least two half-viewports wide, the
clamped x coordinate lies in `[half_width, map_width − half_width]`. -/
theorem clampX_bounds (s : RendererState) (z : Int)
    (hcl : s.clamp_camera = true) (hmap : 2 * s.half_width ≤ s.map_width) :
    s.half_width ≤ Renderer.clampX s z ∧
    Renderer.clampX s z + s.half_width ≤ s.map_width := by
  simp only [Renderer.clampX, hcl, if_true]
  split_ifs <;> omega

theorem clampY_bounds (s : RendererState) (z : Int)
    (hcl : s.clamp_camera = true) (hmap : 2 * s.half_height ≤ s.map_height) :
    s.half_height ≤ Renderer.clampY s z ∧
    Renderer.clampY s z + s.half_height ≤ s.map_height := by
  simp only [Renderer.clampY, hcl, if_true]
  split_ifs <;> omega

/-- Further fields `_center_map` leaves alone. -/
theorem centerMap_config2 (s : RendererState) (p : Int × Int) :
    (Renderer.centerMap s p).padding = s.padding ∧
    (Renderer.centerMap s p).tile_width = s.tile_width ∧
    (Renderer.centerMap s p).tile_height = s.tile_height ∧
    (Renderer.centerMap s p).layers = s.layers ∧
    (Renderer.centerMap s p).blitLog = s.blitLog := by
  simp only [Renderer.centerMap]
  split
  · exact ⟨rfl, rfl, rfl, rfl, rfl⟩
  · refine ⟨?_, ?_, ?_, ?_, ?_⟩ <;>
    · split <;> simp only [Renderer.updateQueue] <;> first
        | rfl
        | (split <;> rfl)

/-- `_center_map` either leaves the view alone (early return or zero tile
delta) or moves it to the reconciled origin
`divmod(clamped − half, tile) − hpad`, keeping its size. -/
theorem centerMap_view_cases (s : RendererState) (p : Int × Int) :
    (Renderer.centerMap s p).view = s.view ∨
    ((Renderer.centerMap s p).view.x
        = Int.fdiv (Renderer.clampX s p.1 - s.half_width) s.tile_width
            - Int.fdiv s.padding 2 ∧
     (Renderer.centerMap s p).view.y
        = Int.fdiv (Renderer.clampY s p.2 - s.half_height) s.tile_height
            - Int.fdiv s.padding 2 ∧
     (Renderer.centerMap s p).view.w = s.view.w ∧
     (Renderer.centerMap s p).view.h = s.view.h) := by
  simp only [Renderer.centerMap]
  split
  · exact Or.inl rfl
  · split
    · refine Or.inr ⟨?_, ?_, ?_, ?_⟩ <;>
      · simp only [Renderer.updateQueue]
        split <;> (simp only [PRect.move, PRect.left, PRect.top]; try ring)
    · exact Or.inl rfl

/-- Any queue element after `_center_map` was already queued or belongs
to the edge tiles of the reconciled view. -/
theorem centerMap_queue_mem (s : RendererState) (p : Int × Int)
    (c : Int × Int × Int)
    (hmem : c ∈ (Renderer.centerMap s p).queue.getD []) :
    c ∈ s.queue.getD [] ∨
    c ∈ (Renderer.getEdgeTiles
        ⟨Int.fdiv (Renderer.clampX s p.1 - s.half_width) s.tile_width
            - Int.fdiv s.padding 2,
          Int.fdiv (Renderer.clampY s p.2 - s.half_height) s.tile_height
            - Int.fdiv s.padding 2,
          s.view.w, s.view.h⟩
        s.layers
        (Int.fdiv (Renderer.clampX s p.1 - s.half_width) s.tile_width
            - Int.fdiv s.padding 2 - s.view.left,
         Int.fdiv (Renderer.clampY s p.2 - s.half_height) s.tile_height
            - Int.fdiv s.padding 2 - s.view.top)).getD [] := by
  have hview : (s.view.move
      (Int.fdiv (Renderer.clampX s p.1 - s.half_width) s.tile_width
        - Int.fdiv s.padding 2 - s.view.left)
      (Int.fdiv (Renderer.clampY s p.2 - s.half_height) s.tile_height
        - Int.fdiv s.padding 2 - s.view.top))
      = ⟨Int.fdiv (Renderer.clampX s p.1 - s.half_width) s.tile_width
          - Int.fdiv s.padding 2,
         Int.fdiv (Renderer.clampY s p.2 - s.half_height) s.tile_height
          - Int.fdiv s.padding 2,
         s.view.w, s.view.h⟩ := by
    simp only [PRect.move, PRect.left, PRect.top]
    congr 1 <;> ring
  simp only [Renderer.centerMap] at hmem
  split at hmem
  · exact Or.inl hmem
  · split at hmem
    · simp only [Renderer.updateQueue] at hmem
      rw [hview] at hmem
      split at hmem
      case _ hq =>
        right
        simpa using hmem
      case _ q hq =>
        simp only [Option.getD_some] at hmem
        rcases List.mem_append.mp hmem with h | h
        · left
          rw [hq]
          simpa using h
        · right
          exact h
    · exact Or.inl hmem

/-- Arithmetic core of clamp containment, one axis: with the camera
coordinate clamped into `[half, W·tile − half]`, padding ≥ 4 and a map at
least as large as the viewport, the reconciled view origin
`(cx − half) fdiv tile − pad/2` is ≥ `−pad/2` and its far edge
`… + (w0 + tile·pad) fdiv tile` stays at most `W + pad − 1`. -/
theorem reconciled_axis_bounds (tw w0 W pad cx : Int)
    (htw : 0 < tw) (hpad : 4 ≤ pad) (hw0 : 0 ≤ w0) (hmap : w0 ≤ W * tw)
    (hclo : Int.fdiv w0 2 ≤ cx) (hchi : cx + Int.fdiv w0 2 ≤ W * tw) :
    0 ≤ Int.fdiv (cx - Int.fdiv w0 2) tw ∧
    Int.fdiv (cx - Int.fdiv w0 2) tw - Int.fdiv pad 2
        + Int.fdiv (w0 + tw * pad) tw ≤ W + pad - 1 := by
  have htw' : (0 : Int) ≤ tw := le_of_lt htw
  have h2 : Int.fdiv w0 2 = w0 / 2 := Int.fdiv_eq_ediv _ (by norm_num)
  have hp2 : Int.fdiv pad 2 = pad / 2 := Int.fdiv_eq_ediv _ (by norm_num)
  have hfd1 : Int.fdiv (cx - Int.fdiv w0 2) tw = (cx - w0 / 2) / tw := by
    rw [h2]
    exact Int.fdiv_eq_ediv _ htw'
  have hfd2 : Int.fdiv (w0 + tw * pad) tw = (w0 + tw * pad) / tw :=
    Int.fdiv_eq_ediv _ htw'
  have hvw : (w0 + tw * pad) / tw = w0 / tw + pad := by
    rw [mul_comm]
    exact Int.add_mul_ediv_right w0 pad (ne_of_gt htw)
  rw [h2] at hclo hchi
  rw [hfd1, hfd2, hvw, hp2]
  have e1 : tw * ((cx - w0 / 2) / tw) + (cx - w0 / 2) % tw = cx - w0 / 2 :=
    Int.ediv_add_emod _ _
  have e1b : 0 ≤ (cx - w0 / 2) % tw := Int.emod_nonneg _ (ne_of_gt htw)
  have e2 : tw * (w0 / tw) + w0 % tw = w0 := Int.ediv_add_emod _ _
  have e2b : 0 ≤ w0 % tw := Int.emod_nonneg _ (ne_of_gt htw)
  have hq1nn : 0 ≤ (cx - w0 / 2) / tw := Int.ediv_nonneg (by omega) htw'
  refine ⟨hq1nn, ?_⟩
  have hkey : (cx - w0 / 2) / tw + w0 / tw ≤ W + 1 := by
    by_contra hcon
    push_neg at hcon
    have h1 : tw * (W + 2) ≤ tw * ((cx - w0 / 2) / tw + w0 / tw) :=
      mul_le_mul_of_nonneg_left (by omega) htw'
    have h1' : tw * ((cx - w0 / 2) / tw + w0 / tw)
        = tw * ((cx - w0 / 2) / tw) + tw * (w0 / tw) := mul_add _ _ _
    have hw0le : w0 ≤ 2 * (w0 / 2) + 1 := by omega
    have hcomm : tw * W = W * tw := mul_comm _ _
    linarith
  omega

/-- Size/configuration side conditions of the clamp-containment claim:
positive tile sizes, padding at least the default 4, and a map at least
as large as the viewport (`w0 × h0` pixels) in both dimensions. -/
def c5Conf (pad tw th W H w0 h0 : Int) : Prop :=
  0 < tw ∧ 0 < th ∧ 4 ≤ pad ∧ 0 ≤ w0 ∧ 0 ≤ h0 ∧ w0 ≤ W * tw ∧ h0 ≤ H * th

/-- Inductive invariant for clamp containment: the configuration fields
hold their `setSize` values, the view keeps its computed size and stays
within the padded map, and every queued or drained tile coordinate is in
bounds. -/
def c5Inv (pad tw th W H w0 h0 : Int) (s : RendererState) : Prop :=
  s.padding = pad ∧ s.clamp_camera = true ∧ s.tile_width = tw ∧
  s.tile_height = th ∧ s.map_width = W * tw ∧ s.map_height = H * th ∧
  s.half_width = Int.fdiv w0 2 ∧ s.half_height = Int.fdiv h0 2 ∧
  s.view.w = Int.fdiv (w0 + tw * pad) tw ∧
  s.view.h = Int.fdiv (h0 + th * pad) th ∧
  -pad ≤ s.view.x ∧ s.view.x + s.view.w ≤ W + pad ∧
  -pad ≤ s.view.y ∧ s.view.y + s.view.h ≤ H + pad ∧
  (∀ c ∈ s.queue.getD [], tileInBounds pad W H c) ∧
  (∀ c ∈ s.blitLog, tileInBounds pad W H c)

theorem c5Inv_center (pad tw th W H w0 h0 : Int) (s : RendererState)
    (p : Int × Int) (hinv : c5Inv pad tw th W H w0 h0 s) :
    c5Inv pad tw th W H w0 h0 (Renderer.center s p) :=
  hinv

theorem c5Inv_flushQ (pad tw th W H w0 h0 : Int) (s : RendererState)
    (hinv : c5Inv pad tw th W H w0 h0 s) :
    c5Inv pad tw th W H w0 h0 (Renderer.flushQ s) := by
  obtain ⟨h1, h2, h3, h4, h5, h6, h7, h8, h9, h10, h11, h12, h13, h14, hQ,
    hB⟩ := hinv
  rw [flushQ_eq]
  refine ⟨h1, h2, h3, h4, h5, h6, h7, h8, h9, h10, h11, h12, h13, h14,
    ?_, ?_⟩
  · intro c hc
    simp at hc
  · intro c hc
    rcases List.mem_append.mp hc with h | h
    · exact hB c h
    · exact hQ c h

/-- The initial state from `set_size` satisfies the invariant. -/
theorem c5Inv_init (pad tw th W H w0 h0 : Int) (fod : Bool)
    (layers : List Int) (hconf : c5Conf pad tw th W H w0 h0) :
    c5Inv pad tw th W H w0 h0
      (Renderer.setSize pad true fod tw th (W * tw) (H * th) layers w0 h0) := by
  obtain ⟨htw, hth, hpad, hw0, hh0, hmw, hmh⟩ := hconf
  have hvw : Int.fdiv (w0 + tw * pad) tw = w0 / tw + pad := by
    rw [Int.fdiv_eq_ediv _ (le_of_lt htw), mul_comm]
    exact Int.add_mul_ediv_right w0 pad (ne_of_gt htw)
  have hvh : Int.fdiv (h0 + th * pad) th = h0 / th + pad := by
    rw [Int.fdiv_eq_ediv _ (le_of_lt hth), mul_comm]
    exact Int.add_mul_ediv_right h0 pad (ne_of_gt hth)
  have hWb : w0 / tw ≤ W := by
    have h := Int.ediv_le_ediv htw hmw
    rwa [Int.mul_ediv_cancel _ (ne_of_gt htw)] at h
  have hHb : h0 / th ≤ H := by
    have h := Int.ediv_le_ediv hth hmh
    rwa [Int.mul_ediv_cancel _ (ne_of_gt hth)] at h
  have hwnn : 0 ≤ w0 / tw := Int.ediv_nonneg hw0 (le_of_lt htw)
  have hhnn : 0 ≤ h0 / th := Int.ediv_nonneg hh0 (le_of_lt hth)
  refine ⟨rfl, rfl, rfl, rfl, rfl, rfl, rfl, rfl, rfl, rfl,
    (by show -pad ≤ (0 : Int); omega), ?_,
    (by show -pad ≤ (0 : Int); omega), ?_, ?_, ?_⟩
  · show (0 : Int) + Int.fdiv (w0 + tw * pad) tw ≤ W + pad
    rw [hvw]
    omega
  · show (0 : Int) + Int.fdiv (h0 + th * pad) th ≤ H + pad
    rw [hvh]
    omega
  · intro c hc
    simp [Renderer.setSize] at hc
  · intro c hc
    simp [Renderer.setSize] at hc

theorem c5Inv_centerMap (pad tw th W H w0 h0 : Int) (s : RendererState)
    (p : Int × Int) (hconf : c5Conf pad tw th W H w0 h0)
    (hinv : c5Inv pad tw th W H w0 h0 s) :
    c5Inv pad tw th W H w0 h0 (Renderer.centerMap s p) := by
  obtain ⟨htw, hth, hpad, hw0, hh0, hmw, hmh⟩ := hconf
  obtain ⟨h1, h2, h3, h4, h5, h6, h7, h8, h9, h10, h11, h12, h13, h14, hQ,
    hB⟩ := hinv
  obtain ⟨hc1, hc2, hc3, hc4, hc5, hc6, hc7⟩ := centerMap_config s p
  obtain ⟨hd1, hd2, hd3, hd4, hd5⟩ := centerMap_config2 s p
  have hmapw : 2 * s.half_width ≤ s.map_width := by
    rw [h7, h5, Int.fdiv_eq_ediv _ (by norm_num)]
    have hx : 2 * (w0 / 2) ≤ w0 := by omega
    linarith
  have hmaph : 2 * s.half_height ≤ s.map_height := by
    rw [h8, h6, Int.fdiv_eq_ediv _ (by norm_num)]
    have hx : 2 * (h0 / 2) ≤ h0 := by omega
    linarith
  obtain ⟨hclox, hchix⟩ := clampX_bounds s p.1 h2 hmapw
  obtain ⟨hcloy, hchiy⟩ := clampY_bounds s p.2 h2 hmaph
  have haxX := reconciled_axis_bounds tw w0 W pad (Renderer.clampX s p.1)
    htw hpad hw0 hmw (by rw [h7] at hclox; exact hclox)
    (by rw [h7, h5] at hchix; exact hchix)
  have haxY := reconciled_axis_bounds th h0 H pad (Renderer.clampY s p.2)
    hth hpad hh0 hmh (by rw [h8] at hcloy; exact hcloy)
    (by rw [h8, h6] at hchiy; exact hchiy)
  have hXlo : 0 ≤ Int.fdiv (Renderer.clampX s p.1 - s.half_width)
      s.tile_width := by
    rw [h7, h3]
    exact haxX.1
  have hXhi : Int.fdiv (Renderer.clampX s p.1 - s.half_width) s.tile_width
      - Int.fdiv s.padding 2 + s.view.w ≤ W + pad - 1 := by
    rw [h7, h3, h1, h9]
    exact haxX.2
  have hYlo : 0 ≤ Int.fdiv (Renderer.clampY s p.2 - s.half_height)
      s.tile_height := by
    rw [h8, h4]
    exact haxY.1
  have hYhi : Int.fdiv (Renderer.clampY s p.2 - s.half_height) s.tile_height
      - Int.fdiv s.padding 2 + s.view.h ≤ H + pad - 1 := by
    rw [h8, h4, h1, h10]
    exact haxY.2
  have hhp : 0 ≤ Int.fdiv s.padding 2 ∧ Int.fdiv s.padding 2 ≤ pad := by
    rw [h1, Int.fdiv_eq_ediv _ (by norm_num)]
    omega
  have hvw1 : 1 ≤ s.view.w := by
    rw [h9, Int.fdiv_eq_ediv _ (le_of_lt htw), mul_comm,
      Int.add_mul_ediv_right w0 pad (ne_of_gt htw)]
    have hx : 0 ≤ w0 / tw := Int.ediv_nonneg hw0 (le_of_lt htw)
    omega
  have hvh1 : 1 ≤ s.view.h := by
    rw [h10, Int.fdiv_eq_ediv _ (le_of_lt hth), mul_comm,
      Int.add_mul_ediv_right h0 pad (ne_of_gt hth)]
    have hx : 0 ≤ h0 / th := Int.ediv_nonneg hh0 (le_of_lt hth)
    omega
  refine ⟨hd1.trans h1, hc1.trans h2, hd2.trans h3, hd3.trans h4,
    hc4.trans h5, hc5.trans h6, hc2.trans h7, hc3.trans h8,
    ?_, ?_, ?_, ?_, ?_, ?_, ?_, ?_⟩
  · rcases centerMap_view_cases s p with hv | ⟨hvx, hvy, hvw, hvh⟩
    · rw [hv]; exact h9
    · rw [hvw]; exact h9
  · rcases centerMap_view_cases s p with hv | ⟨hvx, hvy, hvw, hvh⟩
    · rw [hv]; exact h10
    · rw [hvh]; exact h10
  · rcases centerMap_view_cases s p with hv | ⟨hvx, hvy, hvw, hvh⟩
    · rw [hv]; exact h11
    · rw [hvx]; linarith [hXlo, hhp.1, hhp.2]
  · rcases centerMap_view_cases s p with hv | ⟨hvx, hvy, hvw, hvh⟩
    · rw [hv]; exact h12
    · rw [hvx, hvw]; linarith [hXhi]
  · rcases centerMap_view_cases s p with hv | ⟨hvx, hvy, hvw, hvh⟩
    · rw [hv]; exact h13
    · rw [hvy]; linarith [hYlo, hhp.1, hhp.2]
  · rcases centerMap_view_cases s p with hv | ⟨hvx, hvy, hvw, hvh⟩
    · rw [hv]; exact h14
    · rw [hvy, hvh]; linarith [hYhi]
  · intro c hc
    rcases centerMap_queue_mem s p c hc with hold | hedge
    · exact hQ c hold
    · refine getEdgeTiles_bounds _ s.layers _ _ W H pad c
        ?_ ?_ ?_ ?_ ?_ ?_ ?_ ?_ ?_ ?_ hedge
      · show -pad ≤ Int.fdiv (Renderer.clampX s p.1 - s.half_width)
            s.tile_width - Int.fdiv s.padding 2
        linarith [hXlo, hhp.1, hhp.2]
      · show Int.fdiv (Renderer.clampX s p.1 - s.half_width) s.tile_width
            - Int.fdiv s.padding 2 + s.view.w ≤ W + pad - 1
        exact hXhi
      · show -pad ≤ Int.fdiv (Renderer.clampY s p.2 - s.half_height)
            s.tile_height - Int.fdiv s.padding 2
        linarith [hYlo, hhp.1, hhp.2]
      · show Int.fdiv (Renderer.clampY s p.2 - s.half_height) s.tile_height
            - Int.fdiv s.padding 2 + s.view.h ≤ H + pad - 1
        exact hYhi
      · simp only [PRect.left]
        linarith [h11]
      · simp only [PRect.left]
        linarith [h12]
      · simp only [PRect.top]
        linarith [h13]
      · simp only [PRect.top]
        linarith [h14]
      · exact hvw1
      · exact hvh1
  · intro c hc
    rw [hd5] at hc
    exact hB c hc

theorem c5Inv_drawStep (pad tw th W H w0 h0 : Int) (s : RendererState)
    (hconf : c5Conf pad tw th W H w0 h0)
    (hinv : c5Inv pad tw th W H w0 h0 s) :
    c5Inv pad tw th W H w0 h0 (Renderer.drawStep s) := by
  obtain ⟨h1, h2, h3, h4, h5, h6, h7, h8, h9, h10, h11, h12, h13, h14, hQ,
    hB⟩ := hinv
  have hfill : ∀ c ∈ Renderer.getFilledQueue s.view s.layers,
      tileInBounds pad W H c := by
    intro c hc
    obtain ⟨hx, hy, -⟩ := mem_product3.mp hc
    rw [mem_intRange] at hx hy
    unfold tileInBounds
    simp only [PRect.left, PRect.right, PRect.top, PRect.bottom] at hx hy
    omega
  simp only [Renderer.drawStep]
  split
  · show c5Inv pad tw th W H w0 h0 (Renderer.redrawAll s)
    exact c5Inv_flushQ pad tw th W H w0 h0 _
      ⟨h1, h2, h3, h4, h5, h6, h7, h8, h9, h10, h11, h12, h13, h14,
       fun c hc => hfill c hc, hB⟩
  · split
    case _ q hcp =>
      show c5Inv pad tw th W H w0 h0 (Renderer.centerMap s q)
      exact c5Inv_centerMap pad tw th W H w0 h0 s q hconf
        ⟨h1, h2, h3, h4, h5, h6, h7, h8, h9, h10, h11, h12, h13, h14, hQ,
         hB⟩
    case _ =>
      exact ⟨h1, h2, h3, h4, h5, h6, h7, h8, h9, h10, h11, h12, h13, h14,
        hQ, hB⟩

theorem c5Inv_draw (pad tw th W H w0 h0 : Int) (s : RendererState)
    (hconf : c5Conf pad tw th W H w0 h0)
    (hinv : c5Inv pad tw th W H w0 h0 s) :
    c5Inv pad tw th W H w0 h0 (Renderer.draw s) := by
  simp only [Renderer.draw]
  split
  · exact c5Inv_flushQ pad tw th W H w0 h0 _
      (c5Inv_drawStep pad tw th W H w0 h0 s hconf hinv)
  · exact c5Inv_drawStep pad tw th W H w0 h0 s hconf hinv

theorem c5Inv_runOps (pad tw th W H w0 h0 : Int)
    (hconf : c5Conf pad tw th W H w0 h0) :
    ∀ (ops : List RendererOp) (s : RendererState),
      c5Inv pad tw th W H w0 h0 s →
      c5Inv pad tw th W H w0 h0 (runOps s ops) := by
  intro ops
  induction ops with
  | nil => intro s h; exact h
  | cons op rest ih =>
    intro s h
    cases op with
    | centerOp p =>
      exact ih _ (c5Inv_center pad tw th W H w0 h0 s p h)
    | drawOp =>
      exact ih _ (c5Inv_draw pad tw th W H w0 h0 s hconf h)

/-- C5 counterexample: with clamping enabled, a map exactly as large as
the viewport (3×3 tiles of size 1, viewport 3×3 px) but padding 0, the
sequence `draw; center((2,2)); draw` drains tile `(1, 4)` — row 4 lies
outside `[0, 3)` even with the (zero) padding margin.  The claim as
stated, with no constraint on the padding, is false. -/
theorem clamp_containment_counterexample :
    (1, 4, 0) ∈ (runOps (Renderer.setSize 0 true true 1 1 3 3 [0] 3 3)
        [.drawOp, .centerOp (2, 2), .drawOp]).blitLog ∧
    ¬ tileInBounds 0 3 3 (1, 4, 0) := by
  decide

/-- C5 amended (padding ≥ 4, the default): with camera clamping enabled
and a map at least as large as the viewport in both dimensions, every
requested center point is clamped component-wise into
`[half_viewport, map_dimension − half_viewport]` before any scroll
computation, and for every sequence of `center()`/`draw()` calls every
tile coordinate drained from the redraw queue to the data source lies
within `[0, W) × [0, H)` of the map plus the padding margin. -/
theorem clamp_containment (pad tw th W H w0 h0 : Int) (fod : Bool)
    (layers : List Int) (ops : List RendererOp)
    (hconf : c5Conf pad tw th W H w0 h0) :
    (∀ (s : RendererState) (z : Int), s.clamp_camera = true →
        2 * s.half_width ≤ s.map_width →
        s.half_width ≤ Renderer.clampX s z ∧
        Renderer.clampX s z + s.half_width ≤ s.map_width) ∧
    (∀ c ∈ (runOps (Renderer.setSize pad true fod tw th (W * tw) (H * th)
        layers w0 h0) ops).blitLog, tileInBounds pad W H c) := by
  constructor
  · intro s z hcl hm
    exact clampX_bounds s z hcl hm
  · intro c hc
    obtain ⟨-, -, -, -, -, -, -, -, -, -, -, -, -, -, -, hB⟩ :=
      c5Inv_runOps pad tw th W H w0 h0 hconf ops _
        (c5Inv_init pad tw th W H w0 h0 fod layers hconf)
    exact hB c hc

/-- Witness for the amended C5 statement at a concrete configuration. -/
theorem clamp_containment_witness :
    tileInBounds 4 4 4 (0, 0, 0) :=
  (clamp_containment 4 8 8 4 4 16 16 true [0] [.drawOp]
      (by refine ⟨?_, ?_, ?_, ?_, ?_, ?_, ?_⟩ <;> decide)).2
    (0, 0, 0) (by decide)
